import Mathlib

/-!
# AIPoweredCLIAgent: the tool-calling loop and its file tools

A shallow embedding of `main.go`.  Go strings are byte sequences, so a string is a list of
byte values; the operating system, the JSON codec and the chat endpoint are explicit
parameters, and every call made to them is recorded in a trace.
-/

namespace AgentCLI

/-- A Go `string`: a sequence of bytes. -/
abbrev GoString := List Nat

/-- The bytes of an ASCII literal. -/
def str (s : String) : GoString := s.data.map Char.toNat

/-! ## Standard library: `unicode/utf8` -/

namespace utf8

/-- The table `first` of `unicode/utf8`: information about the first byte of an encoding. -/
def first (b : Nat) : Nat :=
  if b < 0x80 then 0xF0
  else if b < 0xC2 then 0xF1
  else if b < 0xE0 then 0x02
  else if b = 0xE0 then 0x13
  else if b < 0xED then 0x03
  else if b = 0xED then 0x23
  else if b < 0xF0 then 0x03
  else if b = 0xF0 then 0x34
  else if b < 0xF4 then 0x04
  else if b = 0xF4 then 0x44
  else 0xF1

/-- The table `acceptRanges`: lowest and highest admissible second byte. -/
def acceptRanges (i : Nat) : Nat × Nat :=
  match i with
  | 0 => (0x80, 0xBF)
  | 1 => (0xA0, 0xBF)
  | 2 => (0x80, 0x9F)
  | 3 => (0x90, 0xBF)
  | 4 => (0x80, 0x8F)
  | _ => (0, 0)

/-- The size returned by `utf8.DecodeRuneInString`: the width in bytes of the first rune of
`s`; `0` for the empty string and `1` for a byte that does not start a well-formed encoding. -/
def DecodeRuneInString (s : GoString) : Nat :=
  match s with
  | [] => 0
  | s0 :: rest =>
    let x := first s0
    if x ≥ 0xF0 then 1
    else
      let sz := x % 8
      let accept := acceptRanges (x / 16)
      if s.length < sz then 1
      else
        match rest with
        | [] => 1
        | s1 :: rest1 =>
          if s1 < accept.1 ∨ accept.2 < s1 then 1
          else if sz ≤ 2 then 2
          else
            match rest1 with
            | [] => 1
            | s2 :: rest2 =>
              if s2 < 0x80 ∨ 0xBF < s2 then 1
              else if sz ≤ 3 then 3
              else
                match rest2 with
                | [] => 1
                | s3 :: _ => if s3 < 0x80 ∨ 0xBF < s3 then 1 else 4

/-- The loop of `utf8.RuneCountInString`: one rune is counted per step and the index moves on
by its width.  `fuel` bounds the number of steps; the length of the string is enough. -/
def RuneCountInString.loop : Nat → GoString → Nat → Nat
  | 0, _, n => n
  | fuel + 1, s, n =>
    match s with
    | [] => n
    | _ :: _ => RuneCountInString.loop fuel (s.drop (DecodeRuneInString s)) (n + 1)

/-- The number of runes of `s`, as `utf8.RuneCountInString` counts them. -/
def RuneCountInString (s : GoString) : Nat :=
  RuneCountInString.loop s.length s 0

end utf8

/-! ## Standard library: `strings` -/

namespace strings

/-- Does `s` begin with `pre`: `strings.HasPrefix`. -/
def HasPrefix (s pre : GoString) : Bool := pre.isPrefixOf s

/-- The index of the first instance of `substr` in `s`: `strings.Index`, with `none` for `-1`. -/
def Index : GoString → GoString → Option Nat
  | [], substr => if HasPrefix [] substr then some 0 else none
  | c :: s, substr =>
    if HasPrefix (c :: s) substr then some 0 else (Index s substr).map (· + 1)

/-- The general loop of `strings.Count`: find the next instance, count it, cut the string
after it.  `fuel` bounds the number of steps; the length of the string is enough. -/
def Count.loop : Nat → GoString → GoString → Nat → Nat
  | 0, _, _, n => n
  | fuel + 1, s, substr, n =>
    match Index s substr with
    | none => n
    | some i => Count.loop fuel (s.drop (i + substr.length)) substr (n + 1)

/-- The number of non-overlapping instances of `substr` in `s`: `strings.Count`. -/
def Count (s substr : GoString) : Nat :=
  match substr with
  | [] => utf8.RuneCountInString s + 1
  | [c] => s.count c
  | _ => Count.loop s.length s substr 0

/-- The slice expression `s[i:j]`. -/
def slice (s : GoString) (i j : Nat) : GoString := (s.take j).drop i

/-- The replacement loop of `strings.Replace`: `k` iterations remain, `i` is the loop counter,
`start` the read position in `s` and `b` the builder.  Returns the builder and the position
reached. -/
def Replace.loop (s old new : GoString) : Nat → Nat → Nat → GoString → GoString × Nat
  | 0, _, start, b => (b, start)
  | k + 1, i, start, b =>
    let j :=
      if old.length = 0 then
        (if i > 0 then start + utf8.DecodeRuneInString (s.drop start) else start)
      else
        -- `Count` has found the instance, so `Index` does not answer `-1` here
        start + (Index (s.drop start) old).getD 0
    Replace.loop s old new k (i + 1) (j + old.length) (b ++ slice s start j ++ new)

/-- A copy of `s` with the first `n` non-overlapping instances of `old` replaced by `new`,
all of them when `n < 0`: `strings.Replace`. -/
def Replace (s old new : GoString) (n : Int) : GoString :=
  if old = new ∨ n = 0 then s
  else
    let m := Count s old
    if m = 0 then s
    else
      let n' : Nat := if n < 0 ∨ (m : Int) < n then m else n.toNat
      let r := Replace.loop s old new n' 0 0 []
      r.1 ++ s.drop r.2

/-- The elements joined by `sep`: `strings.Join`. -/
def Join : List GoString → GoString → GoString
  | [], _ => []
  | [a], _ => a
  | a :: b :: elems, sep => a ++ sep ++ Join (b :: elems) sep

end strings

/-! ## Standard library: `path` -/

namespace path

/-- The elements of a path between its slashes. -/
def elements (p : GoString) : List GoString :=
  p.foldr (fun c acc =>
    if c = 47 then [] :: acc
    else match acc with
      | [] => [[c]]
      | h :: t => (c :: h) :: t) [[]]

/-- One step of `path.Clean` on the stack of elements kept so far (innermost first). -/
def cleanStep (rooted : Bool) (stack : List GoString) (e : GoString) : List GoString :=
  if e = [] ∨ e = [46] then stack
  else if e = [46, 46] then
    match stack with
    | [] => if rooted then [] else [[46, 46]]
    | top :: below => if top = [46, 46] then [46, 46] :: top :: below else below
  else e :: stack

/-- The shortest path equivalent to `p` by lexical processing: `path.Clean`. -/
def Clean (p : GoString) : GoString :=
  let rooted := p.head? = some 47
  let kept := ((elements p).foldl (cleanStep rooted) []).reverse
  let body := strings.Join kept [47]
  if rooted then 47 :: body
  else if body = [] then [46] else body

/-- All but the last element of `p`, cleaned: `path.Dir`. -/
def Dir (p : GoString) : GoString :=
  Clean ((p.reverse.dropWhile (· ≠ 47)).reverse)

end path

/-! ## The outside world -/

/-- A Go `error`: its message, and whether `os.IsNotExist` holds of it. -/
structure GoError where
  msg : GoString
  notExist : Bool
deriving DecidableEq, Repr

/-- An error built by `fmt.Errorf` from the text before the verb and the value formatted at
the verb.  `os.IsNotExist` does not hold of it. -/
def GoError.errorf (text detail : GoString) : GoError :=
  { msg := text ++ detail, notExist := false }

/-- A `[]string`: `none` is the nil slice. -/
abbrev StringSlice := Option (List GoString)

/-- The built-in `append` on a `[]string`. -/
def StringSlice.append (s : StringSlice) (x : GoString) : StringSlice :=
  match s with
  | none => some [x]
  | some xs => some (xs ++ [x])

/-- The document `json.Marshal` produces for a `[]string`: a nil slice encodes as the JSON
value `null`, any other slice as an array of its strings. -/
inductive JSON where
  | null
  | array (items : List GoString)
deriving DecidableEq, Repr

/-- What `json.Marshal` makes of a `[]string`. -/
def JSON.marshal : StringSlice → JSON
  | none => JSON.null
  | some xs => JSON.array xs

/-- The text of a JSON document; `quote` writes one string as a JSON string literal. -/
def JSON.render (quote : GoString → GoString) : JSON → GoString
  | JSON.null => str "null"
  | JSON.array items => str "[" ++ strings.Join (items.map quote) (str ",") ++ str "]"

mutual
/-- What `os.Lstat` and the directory read report about a path during a walk. -/
inductive Node where
  | file
  | dir (entries : Entries)
  | unreadable (err : GoError)
  | missing (err : GoError)
/-- The entries of a directory, in the order `readDirNames` returns them. -/
inductive Entries where
  | nil
  | cons (name : GoString) (node : Node) (rest : Entries)
end

structure ChatFunctionCall where
  Name : GoString
  Arguments : GoString
deriving DecidableEq, Repr

structure ChatCompletionMessage where
  Role : GoString
  Content : GoString
  Name : GoString
  FunctionCall : Option ChatFunctionCall
deriving DecidableEq, Repr

structure FunctionDefinition where
  Name : GoString
  Description : GoString
  Parameters : GoString
deriving DecidableEq, Repr

structure ChatCompletionRequest where
  Model : GoString
  Messages : List ChatCompletionMessage
  Functions : List FunctionDefinition
  FunctionCall : Option GoString
  MaxTokens : Nat
deriving DecidableEq, Repr

structure ChatCompletionChoice where
  Message : ChatCompletionMessage
deriving DecidableEq, Repr

structure ChatCompletionResponse where
  Choices : List ChatCompletionChoice
deriving DecidableEq, Repr

/-- A call that leaves the process. -/
inductive Event where
  | stdout (text : GoString)
  | readFile (name : GoString)
  | mkdirAll (path : GoString) (perm : Nat)
  | writeFile (name : GoString) (data : GoString) (perm : Nat)
  | walk (root : GoString)
  | chatCompletion (req : ChatCompletionRequest)
deriving DecidableEq, Repr

/-- The state outside the process together with the calls made so far. -/
structure World (σ : Type) where
  state : σ
  trace : List Event

structure ReadFileInput where
  Path : GoString
deriving DecidableEq, Repr

structure ListFilesInput where
  Path : GoString
deriving DecidableEq, Repr

structure EditFileInput where
  Path : GoString
  OldStr : GoString
  NewStr : GoString
deriving DecidableEq, Repr

/-- The libraries the tools call: `json.Unmarshal` into each input type, and the file
operations of `os` and `path/filepath` acting on the outside state. -/
structure Env (σ : Type) where
  unmarshalReadFile : GoString → Except GoError ReadFileInput
  unmarshalListFiles : GoString → Except GoError ListFilesInput
  unmarshalEditFile : GoString → Except GoError EditFileInput
  readFile : GoString → σ → Except GoError GoString × σ
  mkdirAll : GoString → Nat → σ → Option GoError × σ
  writeFile : GoString → GoString → Nat → σ → Option GoError × σ
  lstatTree : GoString → σ → Node × σ
  jsonQuote : GoString → GoString
  schema : GoString → GoString

namespace os

variable {σ : Type}

/-- The call `os.ReadFile(name)`. -/
def ReadFile (env : Env σ) (name : GoString) (w : World σ) : Except GoError GoString × World σ :=
  let r := env.readFile name w.state
  (r.1, { state := r.2, trace := w.trace ++ [Event.readFile name] })

/-- The call `os.MkdirAll(path, perm)`. -/
def MkdirAll (env : Env σ) (path : GoString) (perm : Nat) (w : World σ) :
    Option GoError × World σ :=
  let r := env.mkdirAll path perm w.state
  (r.1, { state := r.2, trace := w.trace ++ [Event.mkdirAll path perm] })

/-- The call `os.WriteFile(name, data, perm)`. -/
def WriteFile (env : Env σ) (name data : GoString) (perm : Nat) (w : World σ) :
    Option GoError × World σ :=
  let r := env.writeFile name data perm w.state
  (r.1, { state := r.2, trace := w.trace ++ [Event.writeFile name data perm] })

end os

/-! ## Standard library: `path/filepath` -/

namespace filepath

/-- The path handed to a walk function: `Join(root, names...)`, kept as its root and the
names below it. -/
structure WalkPath where
  root : GoString
  names : List GoString
deriving DecidableEq, Repr

/-- The file information handed to a walk function; `none` where `Lstat` failed. -/
abbrev FileInfo := Option Bool

/-- Does the information describe a directory: `info.IsDir()`. -/
def FileInfo.IsDir (info : FileInfo) : Bool := info.getD false

/-- The result of `filepath.Rel(dir, path)` for a path the walk of `dir` visits: `.` for the
root itself, otherwise the names below the root joined by the separator. -/
def Rel (_dir : GoString) (p : WalkPath) : Except GoError GoString :=
  match p.names with
  | [] => Except.ok [46]
  | ns => Except.ok (strings.Join ns [47])

mutual
/-- The function `walk` of `path/filepath`: visit `path`, then the entries of a directory in
the order read.  `acc` is the state of the walk function; an error stops the walk. -/
def walk {α : Type} (fn : WalkPath → FileInfo → Option GoError → α → Except GoError α)
    (p : WalkPath) : Node → α → Except GoError α
  | Node.file, acc => fn p (some false) none acc
  | Node.missing err, acc => fn p none (some err) acc
  | Node.unreadable err, acc => fn p (some true) (some err) acc
  | Node.dir entries, acc =>
    match fn p (some true) none acc with
    | Except.error e => Except.error e
    | Except.ok acc1 => walkEntries fn p entries acc1
/-- The loop of `walk` over the names of a directory. -/
def walkEntries {α : Type} (fn : WalkPath → FileInfo → Option GoError → α → Except GoError α)
    (p : WalkPath) : Entries → α → Except GoError α
  | Entries.nil, acc => Except.ok acc
  | Entries.cons name node rest, acc =>
    match walk fn { root := p.root, names := p.names ++ [name] } node acc with
    | Except.error e => Except.error e
    | Except.ok acc1 => walkEntries fn p rest acc1
end

/-- The call `filepath.Walk(root, fn)` on the tree found at `root`. -/
def Walk {σ α : Type} (env : Env σ) (root : GoString)
    (fn : WalkPath → FileInfo → Option GoError → α → Except GoError α) (acc : α)
    (w : World σ) : Except GoError α × World σ :=
  let r := env.lstatTree root w.state
  (walk fn { root := root, names := [] } r.1 acc,
    { state := r.2, trace := w.trace ++ [Event.walk root] })

end filepath

/-! ## The program -/

variable {σ : Type}

structure ToolDefinition (σ : Type) where
  Name : GoString
  Description : GoString
  Parameters : GoString
  Function : GoString → World σ → Except GoError GoString × World σ

/-- The agent.  `client` is the method `CreateChatCompletion` of the OpenAI client; the
function `getUserMessage` is represented by the lines it yields, passed to `Run`. -/
structure Agent (σ : Type) where
  client : ChatCompletionRequest → σ → Except GoError ChatCompletionResponse × σ
  tools : List (ToolDefinition σ)

/-- A write to standard output: `fmt.Print`, `fmt.Println`, `fmt.Printf`. -/
def fmtPrint (text : GoString) (w : World σ) : World σ :=
  { state := w.state, trace := w.trace ++ [Event.stdout text] }

/-- The call `a.client.CreateChatCompletion(ctx, req)`. -/
def Agent.CreateChatCompletion (a : Agent σ) (req : ChatCompletionRequest) (w : World σ) :
    Except GoError ChatCompletionResponse × World σ :=
  let r := a.client req w.state
  (r.1, { state := r.2, trace := w.trace ++ [Event.chatCompletion req] })

def ChatMessageRoleUser : GoString := str "user"
def ChatMessageRoleFunction : GoString := str "function"
def GPT3Dot5Turbo : GoString := str "gpt-3.5-turbo"

/-- The lookup loop of `executeTool`: the first tool of the registry with the given name. -/
def Agent.findTool : List (ToolDefinition σ) → GoString → Option (ToolDefinition σ)
  | [], _ => none
  | tool :: rest, name => if tool.Name = name then some tool else Agent.findTool rest name

/-- The method `executeTool` (main.go:121). -/
def Agent.executeTool (a : Agent σ) (fc : ChatFunctionCall) (w : World σ) :
    Except GoError GoString × World σ :=
  match Agent.findTool a.tools fc.Name with
  | none => (Except.error (GoError.errorf (str "Tool not found: ") fc.Name), w)
  | some toolDef =>
    let w1 := fmtPrint (str "\x1b[92mtool\x1b[0m: " ++ fc.Name ++ str "(" ++ fc.Arguments
      ++ str ")\n") w
    match toolDef.Function fc.Arguments w1 with
    | (Except.error err, w2) => (Except.error err, w2)
    | (Except.ok output, w2) => (Except.ok output, w2)

/-- The method `runInference` (main.go:154). -/
def Agent.runInference (a : Agent σ) (conversation : List ChatCompletionMessage)
    (w : World σ) : Except GoError ChatCompletionResponse × World σ :=
  let openaiTools := a.tools.map fun tool =>
    ({ Name := tool.Name, Description := tool.Description, Parameters := tool.Parameters }
      : FunctionDefinition)
  let req : ChatCompletionRequest :=
    { Model := GPT3Dot5Turbo, Messages := conversation, Functions := openaiTools,
      FunctionCall := some (str "auto"), MaxTokens := 1024 }
  a.CreateChatCompletion req w

/-- How one pass through the body of the loop of `Run` ends: the loop goes on with the new
history, `Run` returns an error, or indexing `resp.Choices[0]` panics. -/
inductive Step where
  | next (messages : List ChatCompletionMessage)
  | ret (err : GoError)
  | panic
deriving DecidableEq, Repr

/-- The body of the loop of `Run` from the user's line on (main.go:73-115). -/
def Agent.turn (a : Agent σ) (messages : List ChatCompletionMessage) (userInput : GoString)
    (w : World σ) : Step × World σ :=
  let messages1 := messages ++
    [{ Role := ChatMessageRoleUser, Content := userInput, Name := [], FunctionCall := none }]
  match a.runInference messages1 w with
  | (Except.error err, w1) => (Step.ret err, w1)
  | (Except.ok resp, w1) =>
    match resp.Choices with
    | [] => (Step.panic, w1)
    | choice :: _ =>
      let msg := choice.Message
      match msg.FunctionCall with
      | some fc =>
        match a.executeTool fc w1 with
        | (Except.error err, w2) => (Step.ret err, w2)
        | (Except.ok toolOutput, w2) =>
          let messages2 := messages1 ++ [msg]
          let messages3 := messages2 ++
            [{ Role := ChatMessageRoleFunction, Name := fc.Name, Content := toolOutput,
               FunctionCall := none }]
          match a.CreateChatCompletion
              { Model := GPT3Dot5Turbo, Messages := messages3, Functions := [],
                FunctionCall := none, MaxTokens := 0 } w2 with
          | (Except.error err, w3) => (Step.ret err, w3)
          | (Except.ok resp2, w3) =>
            match resp2.Choices with
            | [] => (Step.panic, w3)
            | choice2 :: _ =>
              let msg2 := choice2.Message
              (Step.next (messages3 ++ [msg2]),
                fmtPrint (str "\x1b[93mChatGPT\x1b[0m: " ++ msg2.Content ++ str "\n") w3)
      | none =>
        (Step.next (messages1 ++ [msg]),
          fmtPrint (str "\x1b[93mChatGPT\x1b[0m: " ++ msg.Content ++ str "\n") w1)

/-- How `Run` ends: it returns (nil or an error), or it panics. -/
inductive RunResult where
  | returned (err : Option GoError)
  | panicked
deriving DecidableEq, Repr

/-- The loop of `Run` (main.go:65) on the lines the user enters before the end of input. -/
def Agent.Run.loop (a : Agent σ) :
    List GoString → List ChatCompletionMessage → World σ → RunResult × World σ
  | [], _, w => (RunResult.returned none, fmtPrint (str "\x1b[94mYou\x1b[0m: ") w)
  | userInput :: rest, messages, w =>
    match a.turn messages userInput (fmtPrint (str "\x1b[94mYou\x1b[0m: ") w) with
    | (Step.next messages1, w1) => Agent.Run.loop a rest messages1 w1
    | (Step.ret err, w1) => (RunResult.returned (some err), w1)
    | (Step.panic, w1) => (RunResult.panicked, w1)

/-- The method `Run` (main.go:60). -/
def Agent.Run (a : Agent σ) (stdin : List GoString) (w : World σ) : RunResult × World σ :=
  Agent.Run.loop a stdin [] (fmtPrint (str "Chat with ChatGPT (use Ctrl+C to quit)\n") w)

/-- The tool `ReadFile` (main.go:188). -/
def ReadFile (env : Env σ) (input : GoString) (w : World σ) :
    Except GoError GoString × World σ :=
  match env.unmarshalReadFile input with
  | Except.error err => (Except.error err, w)
  | Except.ok readFileInput =>
    match os.ReadFile env readFileInput.Path w with
    | (Except.error err, w1) => (Except.error err, w1)
    | (Except.ok content, w1) => (Except.ok content, w1)

def ReadFileDefinition (env : Env σ) : ToolDefinition σ :=
  { Name := str "read_file"
    Description := str "Read the contents of a given relative file path. Use this when you want to see what's inside a file. Do not use this with directory names."
    Parameters := env.schema (str "ReadFileInput")
    Function := ReadFile env }

/-- The function literal `ListFiles` passes to `filepath.Walk` (main.go:240). -/
def ListFiles.walkFn (dir : GoString) (p : filepath.WalkPath) (info : filepath.FileInfo)
    (err : Option GoError) (files : StringSlice) : Except GoError StringSlice :=
  match err with
  | some e => Except.error e
  | none =>
    match filepath.Rel dir p with
    | Except.error e => Except.error e
    | Except.ok relPath =>
      if relPath ≠ str "." then
        if filepath.FileInfo.IsDir info then Except.ok (files.append (relPath ++ str "/"))
        else Except.ok (files.append relPath)
      else Except.ok files

/-- The tool `ListFiles` (main.go:228). -/
def ListFiles (env : Env σ) (input : GoString) (w : World σ) :
    Except GoError GoString × World σ :=
  match env.unmarshalListFiles input with
  | Except.error err => (Except.error err, w)
  | Except.ok listFilesInput =>
    let dir := if listFilesInput.Path ≠ [] then listFilesInput.Path else str "."
    match filepath.Walk env dir (ListFiles.walkFn dir) none w with
    | (Except.error err, w1) => (Except.error err, w1)
    | (Except.ok files, w1) =>
      -- `json.Marshal` does not fail on a `[]string`
      (Except.ok (JSON.render env.jsonQuote (JSON.marshal files)), w1)

def ListFilesDefinition (env : Env σ) : ToolDefinition σ :=
  { Name := str "list_files"
    Description := str "List files and directories at a given path. If no path is provided, lists files in the current directory."
    Parameters := env.schema (str "ListFilesInput")
    Function := ListFiles env }

/-- The function `createNewFile` (main.go:336). -/
def createNewFile (env : Env σ) (filePath content : GoString) (w : World σ) :
    Except GoError GoString × World σ :=
  let dir := path.Dir filePath
  let mk : Option GoError × World σ :=
    if dir ≠ str "." then os.MkdirAll env dir 0o755 w else (none, w)
  match mk with
  | (some err, w1) =>
    (Except.error (GoError.errorf (str "failed to create directory: ") err.msg), w1)
  | (none, w1) =>
    match os.WriteFile env filePath content 0o644 w1 with
    | (some err, w2) =>
      (Except.error (GoError.errorf (str "failed to create file: ") err.msg), w2)
    | (none, w2) => (Except.ok (str "Successfully created file " ++ filePath), w2)

/-- The tool `EditFile` (main.go:289). -/
def EditFile (env : Env σ) (input : GoString) (w : World σ) :
    Except GoError GoString × World σ :=
  match env.unmarshalEditFile input with
  | Except.error err => (Except.error (GoError.errorf (str "invalid JSON input: ") err.msg), w)
  | Except.ok editFileInput =>
    if editFileInput.Path = [] ∨ editFileInput.OldStr = editFileInput.NewStr then
      (Except.error
        (GoError.errorf (str "invalid input: path is empty or old_str == new_str") []), w)
    else
      match os.ReadFile env editFileInput.Path w with
      | (Except.error err, w1) =>
        if err.notExist then
          if editFileInput.OldStr = [] then
            createNewFile env editFileInput.Path editFileInput.NewStr w1
          else
            let initialContent := editFileInput.OldStr ++ str "\n" ++ editFileInput.NewStr
            createNewFile env editFileInput.Path initialContent w1
        else (Except.error (GoError.errorf (str "error reading file: ") err.msg), w1)
      | (Except.ok content, w1) =>
        let oldContent := content
        let newContent :=
          strings.Replace oldContent editFileInput.OldStr editFileInput.NewStr (-1)
        if oldContent = newContent ∧ editFileInput.OldStr ≠ [] then
          (Except.error
            (GoError.errorf (str "old_str not found in file: no changes made") []), w1)
        else
          match os.WriteFile env editFileInput.Path newContent 0o644 w1 with
          | (some err, w2) =>
            (Except.error (GoError.errorf (str "error writing file: ") err.msg), w2)
          | (none, w2) => (Except.ok (str "File edited successfully."), w2)

def EditFileDefinition (env : Env σ) : ToolDefinition σ :=
  { Name := str "edit_file"
    Description := str "Make edits to a text file.\n\nReplaces 'old_str' with 'new_str' in the given file. 'old_str' and 'new_str' MUST be different from each other.\n\nIf the file specified with path doesn't exist, it will be created."
    Parameters := env.schema (str "EditFileInput")
    Function := EditFile env }

/-- The registry `main` builds (main.go:40). -/
def tools (env : Env σ) : List (ToolDefinition σ) :=
  [ReadFileDefinition env, ListFilesDefinition env, EditFileDefinition env]

/-! ## Vocabulary of the specification -/

namespace Spec

/-- The pieces of `s` around the occurrences of `sep` met scanning left to right; an
occurrence, once met, is passed over whole, so occurrences do not overlap.  `skip` bytes of an
occurrence remain to be passed over and `piece` is the piece being read. -/
def piecesFrom (sep : GoString) : GoString → Nat → GoString → List GoString
  | [], _, piece => [piece]
  | _ :: s, skip + 1, piece => piecesFrom sep s skip piece
  | c :: s, 0, piece =>
    if sep.isPrefixOf (c :: s) then piece :: piecesFrom sep s (sep.length - 1) []
    else piecesFrom sep s 0 (piece ++ [c])

/-- The pieces of `s` split at `sep`. -/
def pieces (s sep : GoString) : List GoString := piecesFrom sep s 0 []

/-- The characters of `s` in order, `fuel` bounding their number: a character is a
well-formed UTF-8 encoding of a code point, or a single byte that begins none. -/
def charsFrom : Nat → GoString → List GoString
  | 0, _ => []
  | fuel + 1, s =>
    match s with
    | [] => []
    | _ :: _ =>
      s.take (utf8.DecodeRuneInString s) :: charsFrom fuel (s.drop (utf8.DecodeRuneInString s))

/-- The characters of `s`. -/
def chars (s : GoString) : List GoString := charsFrom s.length s

/-- The UTF-8 encoding of the code point `cp`. -/
def encode (cp : Nat) : GoString :=
  if cp < 0x80 then [cp]
  else if cp < 0x800 then [0xC0 + cp / 64, 0x80 + cp % 64]
  else if cp < 0x10000 then [0xE0 + cp / 4096, 0x80 + cp / 64 % 64, 0x80 + cp % 64]
  else [0xF0 + cp / 262144, 0x80 + cp / 4096 % 64, 0x80 + cp / 64 % 64, 0x80 + cp % 64]

/-- A code point that has an encoding: below `0x110000` and not a surrogate. -/
def scalar (cp : Nat) : Prop := cp < 0xD800 ∨ (0xE000 ≤ cp ∧ cp < 0x110000)

/-- The string `s` with `ins` put before each of its characters and once more at the end. -/
def interleave (s ins : GoString) : GoString :=
  ins ++ ((chars s).map (· ++ ins)).flatten

/-- Does `sub` occur in `s`. -/
def occursIn (sub s : GoString) : Prop := sub <:+: s

/-- The file named `name` exists with content `c`: the name is not empty (the empty path names
no file) and reading it yields `c`. -/
def FileAt {σ : Type} (env : Env σ) (s : σ) (name c : GoString) : Prop :=
  name ≠ [] ∧ (env.readFile name s).1 = Except.ok c

/-- The path `name` does not exist: reading it fails with an error of which `os.IsNotExist`
holds. -/
def Missing {σ : Type} (env : Env σ) (s : σ) (name : GoString) : Prop :=
  ∃ e, (env.readFile name s).1 = Except.error e ∧ e.notExist = true

/-- The error `EditFile` returns when the edit preconditions fail (main.go:297). -/
def errInvalidInput : GoError :=
  GoError.errorf (str "invalid input: path is empty or old_str == new_str") []

/-- The error `EditFile` returns when the replacement changes nothing (main.go:325). -/
def errNoChange : GoError :=
  GoError.errorf (str "old_str not found in file: no changes made") []

/-- The error `executeTool` returns when no tool has the requested name (main.go:134). -/
def errToolNotFound (name : GoString) : GoError :=
  GoError.errorf (str "Tool not found: ") name

/-- The message that carries a line of the user. -/
def userMessage (u : GoString) : ChatCompletionMessage :=
  { Role := ChatMessageRoleUser, Content := u, Name := [], FunctionCall := none }

/-- The message that carries the result `o` of the tool `name`. -/
def toolMessage (name o : GoString) : ChatCompletionMessage :=
  { Role := ChatMessageRoleFunction, Name := name, Content := o, FunctionCall := none }

/-- The request of the first model call of a turn: the history with the tool declarations. -/
def inferenceRequest {σ : Type} (a : Agent σ) (history : List ChatCompletionMessage) :
    ChatCompletionRequest :=
  { Model := GPT3Dot5Turbo, Messages := history,
    Functions := a.tools.map fun tool =>
      { Name := tool.Name, Description := tool.Description, Parameters := tool.Parameters },
    FunctionCall := some (str "auto"), MaxTokens := 1024 }

/-- The request of the model call that follows a tool call: the history alone. -/
def followUpRequest (history : List ChatCompletionMessage) : ChatCompletionRequest :=
  { Model := GPT3Dot5Turbo, Messages := history, Functions := [], FunctionCall := none,
    MaxTokens := 0 }

/-- The line that shows an answer of the model. -/
def answerLine (m : ChatCompletionMessage) : GoString :=
  str "\x1b[93mChatGPT\x1b[0m: " ++ m.Content ++ str "\n"

/-- The line that announces a tool invocation. -/
def toolLine (fc : ChatFunctionCall) : GoString :=
  str "\x1b[92mtool\x1b[0m: " ++ fc.Name ++ str "(" ++ fc.Arguments ++ str ")\n"

/-- The prompt shown before each line of the user. -/
def promptLine : GoString := str "\x1b[94mYou\x1b[0m: "

/-- The slice after appending the given strings one by one. -/
def pushAll (files : StringSlice) (xs : List GoString) : StringSlice :=
  xs.foldl StringSlice.append files

/-- A name a directory can hold: not empty, not `.`, not `..`, without a separator. -/
def validName (n : GoString) : Bool :=
  n ≠ [] && n ≠ [46] && n ≠ [46, 46] && !n.contains 47

mutual
/-- A tree is readable when every directory in it can be read, every entry can be examined
and every name is one a directory can hold. -/
def readable : Node → Bool
  | Node.file => true
  | Node.dir entries => readableEntries entries
  | Node.unreadable _ => false
  | Node.missing _ => false
/-- Readability of the entries of a directory. -/
def readableEntries : Entries → Bool
  | Entries.nil => true
  | Entries.cons name node rest => validName name && readable node && readableEntries rest
end

/-- Is the node a directory. -/
def isDir : Node → Bool
  | Node.dir _ => true
  | Node.unreadable _ => true
  | _ => false

/-- The line that stands for an entry: its names from the root joined by the separator, and a
separator after them when it is a directory. -/
def line (names : List GoString) (dir : Bool) : GoString :=
  strings.Join names [47] ++ (if dir then [47] else [])

mutual
/-- The lines of the entries below the node found at `names`, in the order of a depth-first
walk: each entry, then what is below it, then the entries after it. -/
def below (names : List GoString) : Node → List GoString
  | Node.dir entries => belowEntries names entries
  | _ => []
/-- The lines of the given entries of the directory at `names` and of all below them. -/
def belowEntries (names : List GoString) : Entries → List GoString
  | Entries.nil => []
  | Entries.cons name node rest =>
    line (names ++ [name]) (isDir node) :: (below (names ++ [name]) node
      ++ belowEntries names rest)
end

end Spec

/-! ## A small world to run the program in -/

namespace Mem

structure File where
  name : GoString
  content : GoString
  readOnly : Bool
deriving DecidableEq, Repr

/-- A file table, the tree seen from the current directory, the directories made so far and
the replies the chat endpoint will give, in order. -/
structure State where
  files : List File
  dirs : List GoString
  tree : Node
  replies : List (Except GoError ChatCompletionResponse)

/-- A text between double quotes, without them. -/
def unquote (t : GoString) : Option GoString :=
  match t with
  | 34 :: rest => if rest.getLast? = some 34 then some rest.dropLast else none
  | _ => none

/-- The members `"key":"value"` of a flat JSON object. -/
def members : List GoString → Option (List (GoString × GoString))
  | [] => some []
  | item :: rest =>
    match item.splitOn 58, members rest with
    | [k, v], some ms =>
      match unquote k, unquote v with
      | some k1, some v1 => some ((k1, v1) :: ms)
      | _, _ => none
    | _, _ => none

/-- A decoder for flat JSON objects whose keys and values are plain strings. -/
def object (raw : GoString) : Except GoError (List (GoString × GoString)) :=
  match raw with
  | 123 :: rest =>
    if rest.getLast? = some 125 then
      match (if rest.dropLast = [] then some [] else members (rest.dropLast.splitOn 44)) with
      | some ms => Except.ok ms
      | none => Except.error { msg := str "invalid character", notExist := false }
    else Except.error { msg := str "unexpected end of JSON input", notExist := false }
  | _ => Except.error { msg := str "invalid character", notExist := false }

/-- The value of a key, empty when the key is absent. -/
def value (ms : List (GoString × GoString)) (key : GoString) : GoString :=
  match ms.find? (fun m => m.1 = key) with
  | some m => m.2
  | none => []

def readFile (name : GoString) (st : State) : Except GoError GoString × State :=
  match st.files.find? (fun f => f.name = name) with
  | some f => (Except.ok f.content, st)
  | none =>
    (Except.error { msg := str "open " ++ name ++ str ": no such file or directory",
                    notExist := true }, st)

def writeFile (name data : GoString) (_perm : Nat) (st : State) : Option GoError × State :=
  match st.files.find? (fun f => f.name = name) with
  | some f =>
    if f.readOnly then
      (some { msg := str "open " ++ name ++ str ": permission denied", notExist := false }, st)
    else
      (none, { st with files := st.files.map fun g =>
        if g.name = name then { g with content := data } else g })
  | none =>
    (none, { st with files := st.files ++ [{ name := name, content := data, readOnly := false }] })

def mkdirAll (path : GoString) (_perm : Nat) (st : State) : Option GoError × State :=
  (none, { st with dirs := st.dirs ++ [path] })

def lstatTree (root : GoString) (st : State) : Node × State :=
  if root = str "." then (st.tree, st)
  else (Node.missing { msg := str "lstat " ++ root ++ str ": no such file or directory",
                       notExist := true }, st)

/-- The libraries over the small world.  Strings are quoted without escapes, which is what
`json.Marshal` does for names made of letters, digits, dots and slashes. -/
def env : Env State :=
  { unmarshalReadFile := fun raw => (object raw).map fun ms => { Path := value ms (str "path") }
    unmarshalListFiles := fun raw => (object raw).map fun ms => { Path := value ms (str "path") }
    unmarshalEditFile := fun raw => (object raw).map fun ms =>
      { Path := value ms (str "path"), OldStr := value ms (str "old_str"),
        NewStr := value ms (str "new_str") }
    readFile := readFile
    mkdirAll := mkdirAll
    writeFile := writeFile
    lstatTree := lstatTree
    jsonQuote := fun t => [34] ++ t ++ [34]
    schema := fun t => t }

/-- The chat endpoint: it gives its replies in order. -/
def client (_req : ChatCompletionRequest) (st : State) :
    Except GoError ChatCompletionResponse × State :=
  match st.replies with
  | [] => (Except.error { msg := str "connection refused", notExist := false }, st)
  | r :: rs => (r, { st with replies := rs })

/-- The agent `main` builds, over the small world. -/
def agent : Agent State := { client := client, tools := tools env }

/-- A world with the given files, tree and replies, in which nothing has happened yet. -/
def world (files : List File) (tree : Node)
    (replies : List (Except GoError ChatCompletionResponse)) : World State :=
  { state := { files := files, dirs := [], tree := tree, replies := replies }, trace := [] }

/-- The arguments of `edit_file` as the model sends them. -/
def editArgs (p o n : GoString) : GoString :=
  [123, 34] ++ str "path" ++ [34, 58, 34] ++ p ++ [34, 44, 34] ++ str "old_str" ++ [34, 58, 34]
    ++ o ++ [34, 44, 34] ++ str "new_str" ++ [34, 58, 34] ++ n ++ [34, 125]

/-- The arguments of `read_file` and of `list_files` as the model sends them. -/
def pathArgs (p : GoString) : GoString :=
  [123, 34] ++ str "path" ++ [34, 58, 34] ++ p ++ [34, 125]

/-- The tree of the specification: file `a.txt` and directory `b` holding file `c.txt`. -/
def sampleTree : Node :=
  Node.dir (Entries.cons (str "a.txt") Node.file
    (Entries.cons (str "b") (Node.dir (Entries.cons (str "c.txt") Node.file Entries.nil))
      Entries.nil))

/-- A world whose one file `f` holds `banana`. -/
def fruit (readOnly : Bool)
    (replies : List (Except GoError ChatCompletionResponse)) : World State :=
  world [{ name := str "f", content := str "banana", readOnly := readOnly }]
    (Node.dir (Entries.cons (str "f") Node.file Entries.nil)) replies

/-- An assistant message that requests a tool. -/
def request (tool args : GoString) : ChatCompletionMessage :=
  { Role := str "assistant", Content := [], Name := [],
    FunctionCall := some { Name := tool, Arguments := args } }

/-- An assistant message that is a plain answer. -/
def answer (text : GoString) : ChatCompletionMessage :=
  { Role := str "assistant", Content := text, Name := [], FunctionCall := none }

/-- The reply of the endpoint that carries one message. -/
def reply (m : ChatCompletionMessage) : Except GoError ChatCompletionResponse :=
  Except.ok { Choices := [{ Message := m }] }

end Mem

/-! ## Lemmas on strings -/

section Lemmas

open strings Spec

theorem HasPrefix_iff (s pre : GoString) : HasPrefix s pre = true ↔ pre <+: s := by
  unfold HasPrefix; exact List.isPrefixOf_iff_prefix

theorem Index_nil (s : GoString) : Index s [] = some 0 := by
  cases s <;> simp [Index, HasPrefix]

theorem Index_none_iff (s sub : GoString) : Index s sub = none ↔ ¬ sub <:+: s := by
  induction s with
  | nil =>
    cases sub with
    | nil => simp [Index, HasPrefix]
    | cons a t => simp [Index, HasPrefix]
  | cons c s ih =>
    unfold Index
    by_cases h : HasPrefix (c :: s) sub = true
    · simp only [h, if_true]
      have := (HasPrefix_iff _ _).1 h
      simp [this.isInfix]
    · simp only [h]
      rw [HasPrefix_iff] at h
      simp only [Bool.false_eq_true, if_false, Option.map_eq_none', ih]
      rw [List.infix_cons_iff]
      tauto

theorem Index_some_split {s sub : GoString} {i : Nat} (h : Index s sub = some i) :
    s = s.take i ++ sub ++ s.drop (i + sub.length) := by
  induction s generalizing i with
  | nil =>
    cases sub with
    | nil => simp
    | cons a t => simp [Index, HasPrefix] at h
  | cons c s ih =>
    unfold Index at h
    by_cases hp : HasPrefix (c :: s) sub = true
    · simp only [hp, if_true, Option.some.injEq] at h
      subst h
      obtain ⟨t, ht⟩ := (HasPrefix_iff _ _).1 hp
      rw [← ht]; simp
    · simp only [hp, Bool.false_eq_true, if_false, Option.map_eq_some'] at h
      obtain ⟨i', hi', rfl⟩ := h
      have := ih hi'
      simp only [List.take_succ_cons, List.cons_append, Nat.add_right_comm i' 1, List.drop_succ_cons]
      rw [← this]

theorem Index_some_lt {s sub : GoString} {i : Nat} (h : Index s sub = some i) :
    i + sub.length ≤ s.length := by
  induction s generalizing i with
  | nil =>
    cases sub with
    | nil => simp [Index, HasPrefix] at h; simp [h]
    | cons a t => simp [Index, HasPrefix] at h
  | cons c s ih =>
    unfold Index at h
    by_cases hp : HasPrefix (c :: s) sub = true
    · simp only [hp, if_true, Option.some.injEq] at h
      subst h
      have := ((HasPrefix_iff _ _).1 hp).length_le
      omega
    · simp only [hp, Bool.false_eq_true, if_false, Option.map_eq_some'] at h
      obtain ⟨i', hi', rfl⟩ := h
      have := ih hi'
      simp only [List.length_cons]; omega

theorem piecesFrom_skip (sep : GoString) (s : GoString) (k : Nat) (q : GoString) :
    piecesFrom sep s k q = piecesFrom sep (s.drop k) 0 q := by
  induction s generalizing k with
  | nil => simp [piecesFrom]
  | cons c t ih =>
    cases k with
    | zero => simp
    | succ k => simp only [piecesFrom, List.drop_succ_cons]; exact ih k

theorem piecesFrom_none {sep s : GoString} (p : GoString) (h : Index s sep = none) :
    piecesFrom sep s 0 p = [p ++ s] := by
  induction s generalizing p with
  | nil => simp [piecesFrom]
  | cons c t ih =>
    unfold Index at h
    by_cases hp : HasPrefix (c :: t) sep = true
    · simp [hp] at h
    · simp only [hp, Bool.false_eq_true, if_false, Option.map_eq_none'] at h
      have hp' : sep.isPrefixOf (c :: t) = false := by
        cases hq : sep.isPrefixOf (c :: t) with
        | false => rfl
        | true => exact absurd hq hp
      simp only [piecesFrom, hp', Bool.false_eq_true, if_false]
      rw [ih _ h]; simp

theorem piecesFrom_some {sep s : GoString} (hsep : sep ≠ []) (p : GoString) {i : Nat}
    (h : Index s sep = some i) :
    piecesFrom sep s 0 p = (p ++ s.take i) :: piecesFrom sep (s.drop (i + sep.length)) 0 [] := by
  induction s generalizing p i with
  | nil =>
    cases sep with
    | nil => exact absurd rfl hsep
    | cons a t => simp [Index, HasPrefix] at h
  | cons c t ih =>
    unfold Index at h
    by_cases hp : HasPrefix (c :: t) sep = true
    · simp only [hp, if_true, Option.some.injEq] at h
      subst h
      have hp' : sep.isPrefixOf (c :: t) = true := by simpa [HasPrefix] using hp
      simp only [piecesFrom, hp', if_true, List.take_zero, List.append_nil, Nat.zero_add]
      rw [piecesFrom_skip]
      cases sep with
      | nil => exact absurd rfl hsep
      | cons a u => simp
    · simp only [hp, Bool.false_eq_true, if_false, Option.map_eq_some'] at h
      obtain ⟨i', hi', rfl⟩ := h
      have hp' : sep.isPrefixOf (c :: t) = false := by
        cases hq : sep.isPrefixOf (c :: t) with
        | false => rfl
        | true => exact absurd hq hp
      simp only [piecesFrom, hp', Bool.false_eq_true, if_false]
      rw [ih _ hi']
      simp [Nat.add_right_comm i' 1]

theorem pieces_none {s sep : GoString} (h : Index s sep = none) : pieces s sep = [s] := by
  simp [pieces, piecesFrom_none [] h]

theorem pieces_some {s sep : GoString} (hsep : sep ≠ []) {i : Nat} (h : Index s sep = some i) :
    pieces s sep = s.take i :: pieces (s.drop (i + sep.length)) sep := by
  simp [pieces, piecesFrom_some hsep [] h]

theorem pieces_ne_nil (s sep : GoString) (hsep : sep ≠ []) : pieces s sep ≠ [] := by
  cases h : Index s sep with
  | none => simp [pieces_none h]
  | some i => simp [pieces_some hsep h]

theorem join_cons (a : GoString) (ps : List GoString) (sep : GoString) (h : ps ≠ []) :
    Join (a :: ps) sep = a ++ sep ++ Join ps sep := by
  cases ps with
  | nil => exact absurd rfl h
  | cons b l => rfl

theorem join_pieces_le (sep : GoString) (hsep : sep ≠ []) :
    ∀ (n : Nat) (s : GoString), s.length ≤ n → Join (pieces s sep) sep = s := by
  intro n
  induction n with
  | zero =>
    intro s hs
    have : s = [] := List.length_eq_zero.1 (Nat.le_zero.1 hs)
    subst this
    cases sep with
    | nil => exact absurd rfl hsep
    | cons a t => rfl
  | succ n ih =>
    intro s hs
    cases h : Index s sep with
    | none => simp [pieces_none h, Join]
    | some i =>
      rw [pieces_some hsep h, join_cons _ _ _ (pieces_ne_nil _ _ hsep)]
      have hl := Index_some_lt h
      have hpos : 0 < sep.length := List.length_pos.2 hsep
      rw [ih]
      · exact (Index_some_split h).symm
      · simp only [List.length_drop]; omega

theorem join_pieces (s sep : GoString) (hsep : sep ≠ []) : Join (pieces s sep) sep = s :=
  join_pieces_le sep hsep s.length s (Nat.le_refl _)

theorem Count_loop_eq (sep : GoString) (hsep : sep ≠ []) :
    ∀ (fuel : Nat) (s : GoString) (n : Nat), s.length ≤ fuel →
      Count.loop fuel s sep n + 1 = n + (pieces s sep).length := by
  intro fuel
  induction fuel with
  | zero =>
    intro s n hs
    have : s = [] := List.length_eq_zero.1 (Nat.le_zero.1 hs)
    subst this
    have : Index [] sep = none := by
      cases sep with
      | nil => exact absurd rfl hsep
      | cons a t => simp [Index, HasPrefix]
    simp [Count.loop, pieces_none this]
  | succ fuel ih =>
    intro s n hs
    unfold Count.loop
    cases h : Index s sep with
    | none => simp [pieces_none h]
    | some i =>
      simp only
      have hl := Index_some_lt h
      have hpos : 0 < sep.length := List.length_pos.2 hsep
      rw [pieces_some hsep h, ih _ _ (by simp only [List.length_drop]; omega)]
      simp only [List.length_cons]; omega

theorem piecesFrom_single_length (c : Nat) (s p : GoString) :
    (piecesFrom [c] s 0 p).length = s.count c + 1 := by
  induction s generalizing p with
  | nil => simp [piecesFrom]
  | cons x t ih =>
    by_cases hx : c = x
    · subst hx
      simp [piecesFrom, ih]
    · have : ([c] : GoString).isPrefixOf (x :: t) = false := by
        simp [List.isPrefixOf, hx]
      simp only [piecesFrom, this, Bool.false_eq_true, if_false, ih]
      simp [List.count_cons, hx, Ne.symm hx]

theorem Count_eq (s sep : GoString) (hsep : sep ≠ []) :
    Count s sep + 1 = (pieces s sep).length := by
  match sep, hsep with
  | [c], _ => simp [Count, pieces, piecesFrom_single_length]
  | a :: b :: t, h =>
    have := Count_loop_eq (a :: b :: t) h s.length s 0 (Nat.le_refl _)
    simpa [Count] using this

theorem Replace_loop_eq (s old new : GoString) (hold : old ≠ []) :
    ∀ (k i start : Nat) (b : GoString), (pieces (s.drop start) old).length = k + 1 →
      (Replace.loop s old new k i start b).1 ++ s.drop (Replace.loop s old new k i start b).2
        = b ++ Join (pieces (s.drop start) old) new := by
  intro k
  induction k with
  | zero =>
    intro i start b hk
    cases h : Index (s.drop start) old with
    | none => simp [Replace.loop, pieces_none h, Join]
    | some d => rw [pieces_some hold h] at hk; simp at hk; exact absurd hk (pieces_ne_nil _ _ hold)
  | succ k ih =>
    intro i start b hk
    have hpos : 0 < old.length := List.length_pos.2 hold
    cases h : Index (s.drop start) old with
    | none => rw [pieces_none h] at hk; simp at hk
    | some d =>
      rw [pieces_some hold h] at hk ⊢
      simp only [List.length_cons, Nat.add_right_cancel_iff] at hk
      unfold Replace.loop
      simp only [Nat.ne_of_gt hpos, if_false, h, Option.getD_some]
      have hdrop : s.drop (start + d + old.length) = (s.drop start).drop (d + old.length) := by
        rw [List.drop_drop, Nat.add_assoc]
      have hslice : strings.slice s start (start + d) = (s.drop start).take d := by
        simp [strings.slice, List.drop_take]
      rw [ih (i + 1) (start + d + old.length) _ (by rw [hdrop]; exact hk), hdrop, hslice,
        join_cons _ _ _ (pieces_ne_nil _ _ hold)]
      simp

theorem Replace_eq_join (s old new : GoString) (hold : old ≠ []) (hne : old ≠ new) :
    Replace s old new (-1) = Join (pieces s old) new := by
  have hc := Count_eq s old hold
  unfold Replace
  simp only [hne, false_or, show ¬ ((-1 : Int) = 0) by decide, if_false]
  by_cases hm : Count s old = 0
  · simp only [hm, if_true]
    rw [hm] at hc
    have hj := join_pieces s old hold
    match hp : pieces s old, hc with
    | [p], _ => rw [hp] at hj; simpa [Join] using hj.symm
  · simp only [hm, if_false, show ((-1 : Int) < 0) by decide, true_or, if_true]
    have := Replace_loop_eq s old new hold (Count s old) 0 0 [] (by simpa using hc.symm)
    simpa using this

theorem join_length (sep : GoString) (ps : List GoString) (h : ps ≠ []) :
    (Join ps sep).length + sep.length = (ps.map List.length).sum + ps.length * sep.length := by
  induction ps with
  | nil => exact absurd rfl h
  | cons a l ih =>
    cases l with
    | nil => simp [Join]
    | cons b l' =>
      have := ih (by simp)
      rw [join_cons _ _ _ (by simp)]
      simp only [List.length_append, List.map_cons, List.sum_cons, List.length_cons,
        Nat.add_mul, Nat.one_mul] at this ⊢
      omega

theorem Replace_ne_self (s old new : GoString) (hold : old ≠ []) (hne : old ≠ new)
    (hocc : Index s old ≠ none) : Replace s old new (-1) ≠ s := by
  rw [Replace_eq_join s old new hold hne]
  intro heq
  obtain ⟨i, hi⟩ := Option.ne_none_iff_exists'.1 hocc
  have hp := pieces_some hold hi
  have hrest := pieces_ne_nil (s.drop (i + old.length)) old hold
  have hj := join_pieces s old hold
  rw [hp] at heq hj
  rw [join_cons _ _ _ hrest] at heq hj
  replace heq := heq.trans hj.symm
  simp only [List.append_assoc, List.append_cancel_left_eq] at heq
  have hlen := congrArg List.length heq
  have h1 := join_length new _ hrest
  have h2 := join_length old _ hrest
  simp only [List.length_append] at hlen
  have hmul : (pieces (s.drop (i + old.length)) old).length * new.length
      = (pieces (s.drop (i + old.length)) old).length * old.length := by omega
  have hpos : 0 < (pieces (s.drop (i + old.length)) old).length := List.length_pos.2 hrest
  have hl : new.length = old.length := Nat.eq_of_mul_eq_mul_left hpos hmul
  exact hne (List.append_inj_left heq hl).symm

theorem Replace_eq_self_iff (s old new : GoString) (hold : old ≠ []) (hne : old ≠ new) :
    Replace s old new (-1) = s ↔ ¬ occursIn old s := by
  unfold occursIn
  rw [← Index_none_iff]
  constructor
  · intro h
    by_contra hc
    exact Replace_ne_self s old new hold hne hc h
  · intro h
    rw [Replace_eq_join s old new hold hne, pieces_none h]; rfl

theorem DecodeRune_pos (s : GoString) (h : s ≠ []) : 0 < utf8.DecodeRuneInString s := by
  rcases s with _ | ⟨s0, _ | ⟨s1, _ | ⟨s2, _ | ⟨s3, r⟩⟩⟩⟩
  · exact absurd rfl h
  all_goals simp only [utf8.DecodeRuneInString]
  all_goals split_ifs
  all_goals omega

theorem DecodeRune_le (s : GoString) : utf8.DecodeRuneInString s ≤ s.length := by
  rcases s with _ | ⟨s0, _ | ⟨s1, _ | ⟨s2, _ | ⟨s3, r⟩⟩⟩⟩
  all_goals simp only [utf8.DecodeRuneInString, List.length_cons, List.length_nil]
  · exact Nat.le_refl _
  all_goals split_ifs
  all_goals omega

theorem flatten_charsFrom (fuel : Nat) (s : GoString) (h : s.length ≤ fuel) :
    (charsFrom fuel s).flatten = s := by
  induction fuel generalizing s with
  | zero =>
    have : s = [] := List.length_eq_zero.1 (Nat.le_zero.1 h)
    simp [charsFrom, this]
  | succ fuel ih =>
    cases s with
    | nil => simp [charsFrom]
    | cons c t =>
      have hp := DecodeRune_pos (c :: t) (by simp)
      simp only [charsFrom, List.flatten_cons]
      rw [ih _ (by simp only [List.length_drop, List.length_cons] at h ⊢; omega)]
      exact List.take_append_drop _ _

theorem flatten_chars (s : GoString) : (chars s).flatten = s :=
  flatten_charsFrom s.length s (Nat.le_refl _)

theorem RuneCount_loop_eq (fuel : Nat) (s : GoString) (n : Nat) :
    utf8.RuneCountInString.loop fuel s n = n + (charsFrom fuel s).length := by
  induction fuel generalizing s n with
  | zero => simp [utf8.RuneCountInString.loop, charsFrom]
  | succ fuel ih =>
    cases s with
    | nil => simp [utf8.RuneCountInString.loop, charsFrom]
    | cons c t =>
      simp only [utf8.RuneCountInString.loop, charsFrom, ih, List.length_cons]
      omega

theorem RuneCount_eq (s : GoString) : utf8.RuneCountInString s = (chars s).length := by
  simp [utf8.RuneCountInString, chars, RuneCount_loop_eq]

theorem Replace_loop_empty (s new : GoString) :
    ∀ (k fuel i start : Nat) (b : GoString), 0 < i → (s.drop start).length ≤ fuel →
      (charsFrom fuel (s.drop start)).length = k →
      (Replace.loop s [] new k i start b).1 ++ s.drop (Replace.loop s [] new k i start b).2
        = b ++ ((charsFrom fuel (s.drop start)).map (· ++ new)).flatten := by
  intro k
  induction k with
  | zero =>
    intro fuel i start b _ hf hk
    have hnil := List.length_eq_zero.1 hk
    have := flatten_charsFrom fuel _ hf
    rw [hnil] at this
    simp only [List.flatten_nil] at this
    simp only [Replace.loop]
    rw [hnil, ← this]
    simp
  | succ k ih =>
    intro fuel i start b hi hf hk
    cases fuel with
    | zero => simp [charsFrom] at hk
    | succ fuel =>
      cases ht : s.drop start with
      | nil => rw [ht] at hk; simp [charsFrom] at hk
      | cons c t =>
        rw [ht] at hk hf
        simp only [charsFrom, List.length_cons, Nat.add_right_cancel_iff] at hk
        have hp := DecodeRune_pos (c :: t) (by simp)
        unfold Replace.loop
        simp only [List.length_nil, if_true, hi, Nat.add_zero, ht]
        have hdrop : s.drop (start + utf8.DecodeRuneInString (c :: t))
            = (c :: t).drop (utf8.DecodeRuneInString (c :: t)) := by
          rw [← ht, List.drop_drop]
        have hslice : strings.slice s start (start + utf8.DecodeRuneInString (c :: t))
            = (c :: t).take (utf8.DecodeRuneInString (c :: t)) := by
          simp [strings.slice, List.drop_take, ht]
        rw [ih fuel (i + 1) _ _ (Nat.succ_pos _)
          (by rw [hdrop]; simp only [List.length_drop, List.length_cons] at hf ⊢; omega)
          (by rw [hdrop]; exact hk), hdrop, hslice]
        simp [charsFrom]

theorem Replace_empty_old (s new : GoString) (hnew : new ≠ []) :
    Replace s [] new (-1) = interleave s new := by
  unfold Replace
  simp only [Ne.symm hnew, false_or, show ¬ ((-1 : Int) = 0) by decide, if_false]
  have hc : Count s [] = (chars s).length + 1 := by simp [Count, RuneCount_eq]
  simp only [hc, Nat.succ_ne_zero, if_false, show ((-1 : Int) < 0) by decide, true_or, if_true]
  unfold Replace.loop
  simp only [List.length_nil, if_true, Nat.lt_irrefl, if_false, Nat.add_zero, Nat.zero_add]
  have := Replace_loop_empty s new (chars s).length s.length 1 0 (strings.slice s 0 0 ++ new)
    (Nat.succ_pos _) (by simp) (by simp [chars])
  simp only [List.nil_append]
  rw [this]
  simp [strings.slice, interleave, chars]

theorem first_ascii (b : Nat) (h : b < 0x80) : utf8.first b = 0xF0 := by
  unfold utf8.first; rw [if_pos h]

theorem first_two (b : Nat) (h1 : 0xC2 ≤ b) (h2 : b < 0xE0) : utf8.first b = 0x02 := by
  unfold utf8.first
  rw [if_neg (by omega), if_neg (by omega), if_pos h2]

theorem first_three (b : Nat) (h1 : 0xE0 ≤ b) (h2 : b < 0xF0) :
    utf8.first b = (if b = 0xE0 then 0x13 else if b = 0xED then 0x23 else 0x03) := by
  unfold utf8.first
  rw [if_neg (by omega), if_neg (by omega), if_neg (by omega)]
  split_ifs <;> first | rfl | omega

theorem first_four (b : Nat) (h1 : 0xF0 ≤ b) (h2 : b < 0xF5) :
    utf8.first b = (if b = 0xF0 then 0x34 else if b = 0xF4 then 0x44 else 0x04) := by
  unfold utf8.first
  rw [if_neg (by omega), if_neg (by omega), if_neg (by omega)]
  split_ifs <;> first | rfl | omega

theorem decode_two (b0 b1 : Nat) (rest : GoString) (x lo hi : Nat)
    (hx : utf8.first b0 = x) (hlt : x < 0xF0) (hsz : x % 8 = 2)
    (hacc : utf8.acceptRanges (x / 16) = (lo, hi)) (h1 : lo ≤ b1) (h2 : b1 ≤ hi) :
    utf8.DecodeRuneInString (b0 :: b1 :: rest) = 2 := by
  simp only [utf8.DecodeRuneInString, hx, hacc, hsz, List.length_cons]
  rw [if_neg (by omega), if_neg (by omega), if_neg (by omega), if_pos (Nat.le_refl _)]

theorem decode_three (b0 b1 b2 : Nat) (rest : GoString) (x lo hi : Nat)
    (hx : utf8.first b0 = x) (hlt : x < 0xF0) (hsz : x % 8 = 3)
    (hacc : utf8.acceptRanges (x / 16) = (lo, hi)) (h1 : lo ≤ b1) (h2 : b1 ≤ hi)
    (h3 : 0x80 ≤ b2) (h4 : b2 ≤ 0xBF) :
    utf8.DecodeRuneInString (b0 :: b1 :: b2 :: rest) = 3 := by
  simp only [utf8.DecodeRuneInString, hx, hacc, hsz, List.length_cons]
  rw [if_neg (by omega), if_neg (by omega), if_neg (by omega), if_neg (by omega),
    if_neg (by omega), if_pos (Nat.le_refl _)]

theorem decode_four (b0 b1 b2 b3 : Nat) (rest : GoString) (x lo hi : Nat)
    (hx : utf8.first b0 = x) (hlt : x < 0xF0) (hsz : x % 8 = 4)
    (hacc : utf8.acceptRanges (x / 16) = (lo, hi)) (h1 : lo ≤ b1) (h2 : b1 ≤ hi)
    (h3 : 0x80 ≤ b2) (h4 : b2 ≤ 0xBF) (h5 : 0x80 ≤ b3) (h6 : b3 ≤ 0xBF) :
    utf8.DecodeRuneInString (b0 :: b1 :: b2 :: b3 :: rest) = 4 := by
  simp only [utf8.DecodeRuneInString, hx, hacc, hsz, List.length_cons]
  rw [if_neg (by omega), if_neg (by omega), if_neg (by omega), if_neg (by omega),
    if_neg (by omega), if_neg (by omega), if_neg (by omega)]

theorem DecodeRune_encode (cp : Nat) (h : scalar cp) (rest : GoString) :
    utf8.DecodeRuneInString (encode cp ++ rest) = (encode cp).length := by
  unfold scalar at h
  unfold encode
  split_ifs with h1 h2 h3
  · simp [utf8.DecodeRuneInString, first_ascii cp h1]
  · exact decode_two _ _ _ 0x02 0x80 0xBF (first_two _ (by omega) (by omega)) (by decide)
      (by decide) rfl (by omega) (by omega)
  · have hf := first_three (0xE0 + cp / 4096) (by omega) (by omega)
    by_cases hE0 : 0xE0 + cp / 4096 = 0xE0
    · rw [if_pos hE0] at hf
      exact decode_three _ _ _ _ 0x13 0xA0 0xBF hf (by decide) (by decide) rfl (by omega)
        (by omega) (by omega) (by omega)
    · rw [if_neg hE0] at hf
      by_cases hED : 0xE0 + cp / 4096 = 0xED
      · rw [if_pos hED] at hf
        exact decode_three _ _ _ _ 0x23 0x80 0x9F hf (by decide) (by decide) rfl (by omega)
          (by omega) (by omega) (by omega)
      · rw [if_neg hED] at hf
        exact decode_three _ _ _ _ 0x03 0x80 0xBF hf (by decide) (by decide) rfl (by omega)
          (by omega) (by omega) (by omega)
  · have hf := first_four (0xF0 + cp / 262144) (by omega) (by omega)
    by_cases hF0 : 0xF0 + cp / 262144 = 0xF0
    · rw [if_pos hF0] at hf
      exact decode_four _ _ _ _ _ 0x34 0x90 0xBF hf (by decide) (by decide) rfl (by omega)
        (by omega) (by omega) (by omega) (by omega) (by omega)
    · rw [if_neg hF0] at hf
      by_cases hF4 : 0xF0 + cp / 262144 = 0xF4
      · rw [if_pos hF4] at hf
        exact decode_four _ _ _ _ _ 0x44 0x80 0x8F hf (by decide) (by decide) rfl (by omega)
          (by omega) (by omega) (by omega) (by omega) (by omega)
      · rw [if_neg hF4] at hf
        exact decode_four _ _ _ _ _ 0x04 0x80 0xBF hf (by decide) (by decide) rfl (by omega)
          (by omega) (by omega) (by omega) (by omega) (by omega)

theorem charsFrom_encode (cps : List Nat) (h : ∀ cp ∈ cps, scalar cp) (fuel : Nat)
    (hf : ((cps.map encode).flatten).length ≤ fuel) :
    charsFrom fuel (cps.map encode).flatten = cps.map encode := by
  induction cps generalizing fuel with
  | nil => cases fuel <;> simp [charsFrom]
  | cons cp rest ih =>
    have hs : scalar cp := h cp (by simp)
    have hw := DecodeRune_encode cp hs (rest.map encode).flatten
    have hpos : 0 < (encode cp).length := by
      unfold encode; split_ifs <;> simp
    simp only [List.map_cons, List.flatten_cons, List.length_append] at hf ⊢
    cases fuel with
    | zero => omega
    | succ fuel =>
      cases hc : encode cp ++ (rest.map encode).flatten with
      | nil =>
        have := congrArg List.length hc
        simp only [List.length_append, List.length_nil] at this
        omega
      | cons b t =>
        simp only [charsFrom]
        rw [← hc, hw, List.take_left, List.drop_left,
          ih (fun x hx => h x (by simp [hx])) fuel (by omega)]

/-- On well-formed UTF-8 the characters are the encodings of the code points. -/
theorem chars_encode (cps : List Nat) (h : ∀ cp ∈ cps, scalar cp) :
    chars (cps.map encode).flatten = cps.map encode :=
  charsFrom_encode cps h _ (Nat.le_refl _)

end Lemmas

/-! ## The tools and the loop -/

section Program

variable {σ : Type}

open strings Spec

theorem ReadFile_ok (env : Env σ) (name : GoString) (w : World σ) (c : GoString)
    (h : (env.readFile name w.state).1 = Except.ok c) :
    os.ReadFile env name w = (Except.ok c, (os.ReadFile env name w).2) :=
  Prod.ext h rfl

theorem ReadFile_trace (env : Env σ) (name : GoString) (w : World σ) :
    (os.ReadFile env name w).2.trace = w.trace ++ [Event.readFile name] := rfl

theorem WriteFile_trace (env : Env σ) (name data : GoString) (perm : Nat) (w : World σ) :
    (os.WriteFile env name data perm w).2.trace = w.trace ++ [Event.writeFile name data perm] :=
  rfl

theorem MkdirAll_trace (env : Env σ) (path : GoString) (perm : Nat) (w : World σ) :
    (os.MkdirAll env path perm w).2.trace = w.trace ++ [Event.mkdirAll path perm] := rfl

/-- What `EditFile` does with a file that exists. -/
theorem EditFile_existing (env : Env σ) (raw : GoString) (w : World σ) (input : EditFileInput)
    (c : GoString) (hdec : env.unmarshalEditFile raw = Except.ok input)
    (hpath : input.Path ≠ []) (hne : input.OldStr ≠ input.NewStr)
    (hread : (env.readFile input.Path w.state).1 = Except.ok c) :
    EditFile env raw w =
      if c = Replace c input.OldStr input.NewStr (-1) ∧ input.OldStr ≠ [] then
        (Except.error errNoChange, (os.ReadFile env input.Path w).2)
      else
        match os.WriteFile env input.Path (Replace c input.OldStr input.NewStr (-1)) 0o644
            (os.ReadFile env input.Path w).2 with
        | (some err, w2) =>
          (Except.error (GoError.errorf (str "error writing file: ") err.msg), w2)
        | (none, w2) => (Except.ok (str "File edited successfully."), w2) := by
  unfold EditFile
  rw [hdec]
  simp only [hpath, hne, or_self, if_false]
  rw [ReadFile_ok env _ w c hread]
  rfl

theorem WriteFile_ok (env : Env σ) (name data : GoString) (perm : Nat) (w : World σ)
    (h : (os.WriteFile env name data perm w).1 = none) :
    os.WriteFile env name data perm w = (none, (os.WriteFile env name data perm w).2) :=
  Prod.ext h rfl

theorem errNoChange_ne_write (m : GoString) :
    GoError.errorf (str "error writing file: ") m ≠ errNoChange := by
  intro h
  have h1 : (str "error writing file: " ++ m).head? = some 101 := rfl
  have h2 : (GoError.errorf (str "error writing file: ") m).msg.head? = some 111 := by
    rw [h]; rfl
  rw [show (GoError.errorf (str "error writing file: ") m).msg
    = str "error writing file: " ++ m from rfl, h1] at h2
  exact absurd h2 (by decide)

/-- Claim C1, amended: for an existing file with content `c`, a non-empty `old_str` that
occurs in `c` and a `new_str` different from it, provided the write succeeds, `EditFile`
succeeds; it reads the file and then writes to the same path the pieces of `c` split at
`old_str` joined by `new_str`, and these pieces joined by `old_str` are `c` itself, so every
other byte is kept in place and in order. -/
theorem EditFile_replaces_every_occurrence (env : Env σ) (raw : GoString) (w : World σ)
    (input : EditFileInput) (c : GoString)
    (hdec : env.unmarshalEditFile raw = Except.ok input)
    (hfile : FileAt env w.state input.Path c)
    (hold : input.OldStr ≠ [])
    (hocc : occursIn input.OldStr c)
    (hne : input.NewStr ≠ input.OldStr)
    (hwrite : (os.WriteFile env input.Path (Join (pieces c input.OldStr) input.NewStr) 0o644
      (os.ReadFile env input.Path w).2).1 = none) :
    (EditFile env raw w).1 = Except.ok (str "File edited successfully.")
    ∧ (EditFile env raw w).2.trace = w.trace ++ [Event.readFile input.Path,
        Event.writeFile input.Path (Join (pieces c input.OldStr) input.NewStr) 0o644]
    ∧ Join (pieces c input.OldStr) input.OldStr = c := by
  have hne' : input.OldStr ≠ input.NewStr := Ne.symm hne
  have hrep := Replace_eq_join c input.OldStr input.NewStr hold hne'
  have hchg : ¬ (c = Replace c input.OldStr input.NewStr (-1) ∧ input.OldStr ≠ []) := by
    intro h
    exact ((Replace_eq_self_iff c _ _ hold hne').1 h.1.symm) hocc
  rw [EditFile_existing env raw w input c hdec hfile.1 hne' hfile.2, if_neg hchg, hrep,
    WriteFile_ok _ _ _ _ _ hwrite]
  refine ⟨rfl, ?_, join_pieces c _ hold⟩
  simp [WriteFile_trace, ReadFile_trace]

/-- Claim C2: for an existing file with content `c`, a non-empty path and a non-empty
`old_str` different from `new_str`, `EditFile` fails with the no-change error exactly when
`old_str` does not occur in `c`; in that case the file is only read, never written; and when
`old_str` occurs, the content handed to the write differs from `c`. -/
theorem EditFile_no_change_iff_absent (env : Env σ) (raw : GoString) (w : World σ)
    (input : EditFileInput) (c : GoString)
    (hdec : env.unmarshalEditFile raw = Except.ok input)
    (hfile : FileAt env w.state input.Path c)
    (hold : input.OldStr ≠ [])
    (hne : input.OldStr ≠ input.NewStr) :
    ((EditFile env raw w).1 = Except.error errNoChange ↔ ¬ occursIn input.OldStr c)
    ∧ (¬ occursIn input.OldStr c →
        (EditFile env raw w).2 = (os.ReadFile env input.Path w).2
        ∧ (EditFile env raw w).2.trace = w.trace ++ [Event.readFile input.Path])
    ∧ (occursIn input.OldStr c → ∃ d, d ≠ c
        ∧ (EditFile env raw w).2.trace
          = w.trace ++ [Event.readFile input.Path, Event.writeFile input.Path d 0o644]) := by
  have hE := EditFile_existing env raw w input c hdec hfile.1 hne hfile.2
  have hiff := Replace_eq_self_iff c input.OldStr input.NewStr hold hne
  by_cases hocc : occursIn input.OldStr c
  · have hchg : ¬ (c = Replace c input.OldStr input.NewStr (-1) ∧ input.OldStr ≠ []) := by
      intro h
      exact (hiff.1 h.1.symm) hocc
    rw [if_neg hchg] at hE
    refine ⟨?_, fun h => absurd hocc h, fun _ => ⟨Replace c input.OldStr input.NewStr (-1), ?_, ?_⟩⟩
    · constructor
      · intro h
        rw [hE] at h
        rcases hw : os.WriteFile env input.Path (Replace c input.OldStr input.NewStr (-1)) 0o644
            (os.ReadFile env input.Path w).2 with ⟨_ | err, w2⟩
        · rw [hw] at h; simp at h
        · rw [hw] at h
          simp only [Except.error.injEq] at h
          exact absurd h (errNoChange_ne_write _)
      · intro h; exact absurd hocc h
    · intro h; exact hchg ⟨h.symm, hold⟩
    · rw [hE]
      have ht := WriteFile_trace env input.Path (Replace c input.OldStr input.NewStr (-1)) 0o644
        (os.ReadFile env input.Path w).2
      rcases hw : os.WriteFile env input.Path (Replace c input.OldStr input.NewStr (-1)) 0o644
          (os.ReadFile env input.Path w).2 with ⟨_ | err, w2⟩
      all_goals
        rw [hw] at ht
        simp only at ht
        rw [ht, ReadFile_trace]
        simp
  · have hchg : c = Replace c input.OldStr input.NewStr (-1) ∧ input.OldStr ≠ [] :=
      ⟨(hiff.2 hocc).symm, hold⟩
    rw [if_pos hchg] at hE
    refine ⟨?_, fun _ => ?_, fun h => absurd h hocc⟩
    · rw [hE]; simp [hocc]
    · rw [hE]; exact ⟨rfl, rfl⟩

/-- Claim C7: for a decoded edit request whose path is empty or whose `old_str` equals
`new_str`, `EditFile` fails with the invalid-input error and leaves the world as it was: no
call to the file system is made, whatever the path names. -/
theorem EditFile_rejects_invalid_input (env : Env σ) (raw : GoString) (w : World σ)
    (input : EditFileInput)
    (hdec : env.unmarshalEditFile raw = Except.ok input)
    (hbad : input.Path = [] ∨ input.OldStr = input.NewStr) :
    EditFile env raw w = (Except.error errInvalidInput, w) := by
  unfold EditFile
  rw [hdec]
  simp only [hbad, if_true]
  rfl

theorem ReadFile_error (env : Env σ) (name : GoString) (w : World σ) (e : GoError)
    (h : (env.readFile name w.state).1 = Except.error e) :
    os.ReadFile env name w = (Except.error e, (os.ReadFile env name w).2) :=
  Prod.ext h rfl

/-- Claim C8: for a non-empty path that does not exist and an `old_str` different from
`new_str`, provided the directory creation and the write succeed, `EditFile` succeeds; after
the read it creates the parent directory of the path, unless that is the current directory,
and then writes to the path exactly `new_str` when `old_str` is empty and `old_str`, a newline
and `new_str` otherwise; it makes no other call. -/
theorem EditFile_creates_missing_file (env : Env σ) (raw : GoString) (w w2 w3 : World σ)
    (input : EditFileInput)
    (hdec : env.unmarshalEditFile raw = Except.ok input)
    (hpath : input.Path ≠ [])
    (hne : input.OldStr ≠ input.NewStr)
    (hmiss : Missing env w.state input.Path)
    (hmk : if path.Dir input.Path ≠ str "." then
        os.MkdirAll env (path.Dir input.Path) 0o755 (os.ReadFile env input.Path w).2 = (none, w2)
      else w2 = (os.ReadFile env input.Path w).2)
    (hwr : os.WriteFile env input.Path
        (if input.OldStr = [] then input.NewStr else input.OldStr ++ str "\n" ++ input.NewStr)
        0o644 w2 = (none, w3)) :
    EditFile env raw w = (Except.ok (str "Successfully created file " ++ input.Path), w3)
    ∧ w3.trace = w.trace ++ [Event.readFile input.Path]
        ++ (if path.Dir input.Path ≠ str "." then [Event.mkdirAll (path.Dir input.Path) 0o755]
            else [])
        ++ [Event.writeFile input.Path
            (if input.OldStr = [] then input.NewStr
             else input.OldStr ++ str "\n" ++ input.NewStr) 0o644] := by
  obtain ⟨e, he, hne'⟩ := hmiss
  have hcreate : ∀ content : GoString, os.WriteFile env input.Path content 0o644 w2 = (none, w3) →
      createNewFile env input.Path content (os.ReadFile env input.Path w).2
        = (Except.ok (str "Successfully created file " ++ input.Path), w3) := by
    intro content hw
    unfold createNewFile
    by_cases hd : path.Dir input.Path ≠ str "."
    · rw [if_pos hd] at hmk
      simp only [hd, if_true, hmk, hw, ne_eq, not_false_eq_true]
    · rw [if_neg hd] at hmk
      subst hmk
      simp only [hd, if_false, hw]
  have htrace : w3.trace = w2.trace ++ [Event.writeFile input.Path
      (if input.OldStr = [] then input.NewStr else input.OldStr ++ str "\n" ++ input.NewStr)
      0o644] := by
    have := WriteFile_trace env input.Path
      (if input.OldStr = [] then input.NewStr else input.OldStr ++ str "\n" ++ input.NewStr)
      0o644 w2
    rw [hwr] at this
    exact this
  constructor
  · unfold EditFile
    rw [hdec]
    simp only [hpath, hne, or_self, if_false]
    rw [ReadFile_error env _ w e he]
    simp only [hne', if_true]
    by_cases ho : input.OldStr = []
    · simp only [ho, if_true] at hwr ⊢
      exact hcreate _ hwr
    · simp only [ho, if_false] at hwr ⊢
      exact hcreate _ hwr
  · rw [htrace]
    by_cases hd : path.Dir input.Path ≠ str "."
    · rw [if_pos hd] at hmk
      have := MkdirAll_trace env (path.Dir input.Path) 0o755 (os.ReadFile env input.Path w).2
      rw [hmk] at this
      simp only at this
      rw [this, ReadFile_trace, if_pos hd]
    · rw [if_neg hd] at hmk
      subst hmk
      rw [ReadFile_trace, if_neg hd]
      simp

/-- Claim C10, amended: for an existing file with content `c`, an empty `old_str` and a
non-empty `new_str`, `EditFile` never reports the no-change error; provided the write succeeds
it succeeds and writes to the path `c` with `new_str` put before every character of `c` and
once more at the end, which is `new_str` alone for an empty file; the characters, joined,
are `c`, and when `c` is well-formed UTF-8 they are the encodings of its code points. -/
theorem EditFile_empty_old_inserts (env : Env σ) (raw : GoString) (w : World σ)
    (input : EditFileInput) (c : GoString)
    (hdec : env.unmarshalEditFile raw = Except.ok input)
    (hfile : FileAt env w.state input.Path c)
    (hold : input.OldStr = [])
    (hnew : input.NewStr ≠ []) :
    (EditFile env raw w).1 ≠ Except.error errNoChange
    ∧ ((os.WriteFile env input.Path (interleave c input.NewStr) 0o644
          (os.ReadFile env input.Path w).2).1 = none →
        (EditFile env raw w).1 = Except.ok (str "File edited successfully.")
        ∧ (EditFile env raw w).2.trace = w.trace ++ [Event.readFile input.Path,
            Event.writeFile input.Path (interleave c input.NewStr) 0o644])
    ∧ interleave c input.NewStr = input.NewStr ++ ((chars c).map (· ++ input.NewStr)).flatten
    ∧ (chars c).flatten = c
    ∧ (c = [] → interleave c input.NewStr = input.NewStr)
    ∧ (∀ cps : List Nat, (∀ cp ∈ cps, scalar cp) → c = (cps.map encode).flatten →
        chars c = cps.map encode) := by
  have hne : input.OldStr ≠ input.NewStr := by rw [hold]; exact Ne.symm hnew
  have hE := EditFile_existing env raw w input c hdec hfile.1 hne hfile.2
  have hchg : ¬ (c = Replace c input.OldStr input.NewStr (-1) ∧ input.OldStr ≠ []) :=
    fun h => h.2 hold
  rw [if_neg hchg, hold, Replace_empty_old c _ hnew] at hE
  refine ⟨?_, ?_, rfl, flatten_chars c, ?_, fun cps hs hc => hc ▸ chars_encode cps hs⟩
  · rw [hE]
    rcases hw : os.WriteFile env input.Path (interleave c input.NewStr) 0o644
        (os.ReadFile env input.Path w).2 with ⟨_ | err, w2⟩
    · simp
    · simp only [ne_eq, Except.error.injEq]
      exact errNoChange_ne_write _
  · intro hw
    rw [hE, WriteFile_ok _ _ _ _ _ hw]
    refine ⟨rfl, ?_⟩
    simp [WriteFile_trace, ReadFile_trace]
  · intro hc
    subst hc
    simp [interleave, chars, charsFrom]

theorem findTool_none_iff (ts : List (ToolDefinition σ)) (name : GoString) :
    Agent.findTool ts name = none ↔ ∀ t ∈ ts, t.Name ≠ name := by
  induction ts with
  | nil => simp [Agent.findTool]
  | cons t rest ih =>
    unfold Agent.findTool
    by_cases h : t.Name = name
    · simp [h]
    · simp [h, ih]

theorem findTool_first (pre : List (ToolDefinition σ)) (t : ToolDefinition σ)
    (post : List (ToolDefinition σ)) (name : GoString)
    (hpre : ∀ x ∈ pre, x.Name ≠ name) (ht : t.Name = name) :
    Agent.findTool (pre ++ t :: post) name = some t := by
  induction pre with
  | nil => simp [Agent.findTool, ht]
  | cons x rest ih =>
    have hx : x.Name ≠ name := hpre x (by simp)
    simp only [List.cons_append, Agent.findTool, hx, if_false]
    exact ih (fun y hy => hpre y (by simp [hy]))

theorem first_match_exists (ts : List (ToolDefinition σ)) (name : GoString)
    (h : ¬ ∀ t ∈ ts, t.Name ≠ name) :
    ∃ pre t post, ts = pre ++ t :: post ∧ (∀ x ∈ pre, x.Name ≠ name) ∧ t.Name = name := by
  induction ts with
  | nil => simp at h
  | cons t rest ih =>
    by_cases ht : t.Name = name
    · exact ⟨[], t, rest, rfl, by simp, ht⟩
    · have : ¬ ∀ x ∈ rest, x.Name ≠ name := by
        intro hall
        apply h
        intro x hx
        rcases List.mem_cons.1 hx with rfl | hx
        · exact ht
        · exact hall x hx
      obtain ⟨pre, t', post, he, hp, ht'⟩ := ih this
      refine ⟨t :: pre, t', post, by simp [he], ?_, ht'⟩
      intro x hx
      rcases List.mem_cons.1 hx with rfl | hx
      · exact ht
      · exact hp x hx

/-- Claim C6: when no registered tool has the requested name, `executeTool` fails with the
tool-not-found error and leaves the world untouched, so no handler runs; when some tool has
the name, `executeTool` returns exactly what the handler of the first such tool returns when
applied once to the raw arguments, after the trace line is printed; and one of the two cases
always holds; the lookup fails exactly when no registered name equals the requested one. -/
theorem executeTool_dispatches_by_name (a : Agent σ) (fc : ChatFunctionCall) (w : World σ) :
    ((∀ t ∈ a.tools, t.Name ≠ fc.Name) →
      a.executeTool fc w = (Except.error (errToolNotFound fc.Name), w))
    ∧ (∀ pre t post, a.tools = pre ++ t :: post → (∀ x ∈ pre, x.Name ≠ fc.Name) →
        t.Name = fc.Name →
        a.executeTool fc w = t.Function fc.Arguments (fmtPrint (toolLine fc) w))
    ∧ ((∀ t ∈ a.tools, t.Name ≠ fc.Name)
        ∨ ∃ pre t post, a.tools = pre ++ t :: post ∧ (∀ x ∈ pre, x.Name ≠ fc.Name)
            ∧ t.Name = fc.Name)
    ∧ (Agent.findTool a.tools fc.Name = none ↔ ∀ t ∈ a.tools, t.Name ≠ fc.Name) := by
  refine ⟨?_, ?_, ?_, findTool_none_iff _ _⟩
  · intro h
    unfold Agent.executeTool
    rw [(findTool_none_iff _ _).2 h]
    rfl
  · intro pre t post hts hpre ht
    unfold Agent.executeTool
    rw [hts, findTool_first pre t post fc.Name hpre ht]
    simp only
    rcases hf : t.Function fc.Arguments (fmtPrint (toolLine fc) w) with ⟨_ | _, w2⟩
    all_goals
      have hf' : t.Function fc.Arguments (fmtPrint (str "\x1b[92mtool\x1b[0m: " ++ fc.Name
        ++ str "(" ++ fc.Arguments ++ str ")\n") w) = _ := hf
      rw [hf']
  · by_cases h : ∀ t ∈ a.tools, t.Name ≠ fc.Name
    · exact Or.inl h
    · exact Or.inr (first_match_exists _ _ h)

/-- Claim C5: when the response of the model to the history `h` followed by the line of the
user carries no tool call, the turn leaves the history `h`, the message of the user and the
response, in this order; the only calls made are the one model call and the display of the
answer, so no handler runs; and `h` is a prefix of the new history. -/
theorem turn_plain_answer (a : Agent σ) (h : List ChatCompletionMessage) (u : GoString)
    (w w1 : World σ) (m : ChatCompletionMessage) (others : List ChatCompletionChoice)
    (hinf : a.runInference (h ++ [userMessage u]) w
      = (Except.ok { Choices := { Message := m } :: others }, w1))
    (hplain : m.FunctionCall = none) :
    a.turn h u w = (Step.next (h ++ [userMessage u, m]), fmtPrint (answerLine m) w1)
    ∧ (fmtPrint (answerLine m) w1).trace = w.trace
        ++ [Event.chatCompletion (inferenceRequest a (h ++ [userMessage u])),
            Event.stdout (answerLine m)]
    ∧ h <+: h ++ [userMessage u, m] := by
  refine ⟨?_, ?_, List.prefix_append _ _⟩
  · have hinf' := hinf
    simp only [userMessage] at hinf'
    simp only [Agent.turn, hinf', hplain, List.append_assoc, List.singleton_append]
    rfl
  · have ht : w1.trace = w.trace
        ++ [Event.chatCompletion (inferenceRequest a (h ++ [userMessage u]))] := by
      have := congrArg (fun r => r.2.trace) hinf
      exact this.symm
    simp [fmtPrint, ht]

/-- Claim C4: when the first response `m` carries a tool call whose execution succeeds with
output `o`, and the model answers the second call with `m2`, the turn leaves the history `h`
followed by the message of the user, `m`, the tool-result message named after the tool with
content `o`, and `m2`; the second model call receives `h` and the first three of these; and
`h` is a prefix of the new history. -/
theorem turn_tool_call (a : Agent σ) (h : List ChatCompletionMessage) (u : GoString)
    (w w1 w2 w3 : World σ) (m m2 : ChatCompletionMessage) (fc : ChatFunctionCall) (o : GoString)
    (others others2 : List ChatCompletionChoice)
    (hinf : a.runInference (h ++ [userMessage u]) w
      = (Except.ok { Choices := { Message := m } :: others }, w1))
    (hcall : m.FunctionCall = some fc)
    (hexec : a.executeTool fc w1 = (Except.ok o, w2))
    (hsecond : a.CreateChatCompletion
        (followUpRequest (h ++ [userMessage u, m, toolMessage fc.Name o])) w2
      = (Except.ok { Choices := { Message := m2 } :: others2 }, w3)) :
    a.turn h u w
      = (Step.next (h ++ [userMessage u, m, toolMessage fc.Name o, m2]),
          fmtPrint (answerLine m2) w3)
    ∧ w1.trace = w.trace ++ [Event.chatCompletion (inferenceRequest a (h ++ [userMessage u]))]
    ∧ w3.trace = w2.trace ++ [Event.chatCompletion
        (followUpRequest (h ++ [userMessage u, m, toolMessage fc.Name o]))]
    ∧ h <+: h ++ [userMessage u, m, toolMessage fc.Name o, m2] := by
  refine ⟨?_, ?_, ?_, List.prefix_append _ _⟩
  · have hinf' := hinf
    have hsecond' := hsecond
    simp only [userMessage, followUpRequest, toolMessage] at hinf' hsecond'
    simp only [Agent.turn, hinf', hcall, hexec, List.append_assoc, List.singleton_append,
      List.cons_append, List.nil_append, hsecond']
    rfl
  · exact (congrArg (fun r => r.2.trace) hinf).symm
  · exact (congrArg (fun r => r.2.trace) hsecond).symm

/-- Claim C3, amended: when the response of the model requests a tool and executing it
raises an error, the turn ends the run: `Run` returns that error, whatever lines the user
would still enter, and the world is the one the tool execution left, so nothing is appended
to the history and the model is not called again. -/
theorem tool_error_ends_run (a : Agent σ) (h : List ChatCompletionMessage) (u : GoString)
    (rest : List GoString) (w w1 w2 : World σ) (m : ChatCompletionMessage)
    (fc : ChatFunctionCall) (e : GoError) (others : List ChatCompletionChoice)
    (hinf : a.runInference (h ++ [userMessage u]) (fmtPrint promptLine w)
      = (Except.ok { Choices := { Message := m } :: others }, w1))
    (hcall : m.FunctionCall = some fc)
    (hexec : a.executeTool fc w1 = (Except.error e, w2)) :
    a.turn h u (fmtPrint promptLine w) = (Step.ret e, w2)
    ∧ Agent.Run.loop a (u :: rest) h w = (RunResult.returned (some e), w2) := by
  have hturn : a.turn h u (fmtPrint promptLine w) = (Step.ret e, w2) := by
    have hinf' := hinf
    simp only [userMessage] at hinf'
    simp only [Agent.turn, hinf', hcall, hexec]
  refine ⟨hturn, ?_⟩
  have hturn' := hturn
  simp only [promptLine] at hturn'
  simp only [Agent.Run.loop, hturn']

/-- A failure of the first model call of a turn ends the run with that failure. -/
theorem model_error_ends_run (a : Agent σ) (h : List ChatCompletionMessage) (u : GoString)
    (rest : List GoString) (w w1 : World σ) (e : GoError)
    (hinf : a.runInference (h ++ [userMessage u]) (fmtPrint promptLine w)
      = (Except.error e, w1)) :
    Agent.Run.loop a (u :: rest) h w = (RunResult.returned (some e), w1) := by
  have hinf' := hinf
  simp only [userMessage, promptLine] at hinf'
  simp only [Agent.Run.loop, Agent.turn, hinf']

theorem Join_append_singleton (ps : List GoString) (n sep : GoString) (h : ps ≠ []) :
    Join (ps ++ [n]) sep = Join ps sep ++ sep ++ n := by
  induction ps with
  | nil => exact absurd rfl h
  | cons a l ih =>
    cases l with
    | nil => simp [Join]
    | cons b l' =>
      have := ih (by simp)
      simp only [List.cons_append] at this ⊢
      simp only [Join, this, List.append_assoc]

/-- the relative path of an entry below the root is never `.` -/
theorem Join_names_ne_dot (names : List GoString) (name : GoString)
    (hv : validName name = true) : Join (names ++ [name]) [47] ≠ [46] := by
  simp only [validName, Bool.and_eq_true, decide_eq_true_eq, Bool.not_eq_true',
    Bool.decide_eq_true] at hv
  by_cases hn : names = []
  · subst hn
    simpa [Join] using hv.1.1.2
  · rw [Join_append_singleton _ _ _ hn]
    intro h
    have hmem : (47 : Nat) ∈ Join names [47] ++ [47] ++ name := by simp
    rw [h] at hmem
    simp at hmem

theorem pushAll_append (files : StringSlice) (xs ys : List GoString) :
    pushAll files (xs ++ ys) = pushAll (pushAll files xs) ys := by
  simp [pushAll, List.foldl_append]

theorem pushAll_cons (files : StringSlice) (x : GoString) (xs : List GoString) :
    pushAll files (x :: xs) = pushAll (files.append x) xs := rfl

theorem Rel_entry (dir : GoString) (names : List GoString) (name : GoString) :
    filepath.Rel dir { root := dir, names := names ++ [name] }
      = Except.ok (Join (names ++ [name]) [47]) := by
  unfold filepath.Rel
  cases names <;> rfl

theorem walkFn_entry (dir : GoString) (names : List GoString) (name : GoString)
    (isdir : Bool) (files : StringSlice) (hv : validName name = true) :
    ListFiles.walkFn dir { root := dir, names := names ++ [name] } (some isdir) none files
      = Except.ok (files.append (line (names ++ [name]) isdir)) := by
  have hne : Join (names ++ [name]) [47] ≠ str "." := Join_names_ne_dot names name hv
  unfold ListFiles.walkFn
  simp only [Rel_entry, hne, ne_eq, not_false_eq_true, if_true, filepath.FileInfo.IsDir,
    Option.getD_some, line]
  cases isdir <;> simp [show str "/" = [47] from rfl]

theorem walkFn_root (dir : GoString) (info : filepath.FileInfo) (files : StringSlice) :
    ListFiles.walkFn dir { root := dir, names := [] } info none files = Except.ok files := by
  simp [ListFiles.walkFn, filepath.Rel, show str "." = [46] from rfl]

mutual
theorem walk_below (dir : GoString) (names : List GoString) (name : GoString) (node : Node)
    (files : StringSlice) (hv : validName name = true) (hr : readable node = true) :
    filepath.walk (ListFiles.walkFn dir) { root := dir, names := names ++ [name] } node files
      = Except.ok (pushAll (files.append (line (names ++ [name]) (isDir node)))
          (below (names ++ [name]) node)) := by
  match node with
  | Node.file =>
    simp only [filepath.walk, walkFn_entry dir names name false files hv, isDir, below, pushAll,
      List.foldl_nil]
  | Node.dir entries =>
    simp only [readable] at hr
    simp only [filepath.walk, walkFn_entry dir names name true files hv, isDir, below]
    exact walkEntries_below dir (names ++ [name]) entries _ hr
  | Node.unreadable err => simp [readable] at hr
  | Node.missing err => simp [readable] at hr
theorem walkEntries_below (dir : GoString) (names : List GoString) (entries : Entries)
    (files : StringSlice) (hr : readableEntries entries = true) :
    filepath.walkEntries (ListFiles.walkFn dir) { root := dir, names := names } entries files
      = Except.ok (pushAll files (belowEntries names entries)) := by
  match entries with
  | Entries.nil => simp [filepath.walkEntries, belowEntries, pushAll]
  | Entries.cons name node rest =>
    simp only [readableEntries, Bool.and_eq_true] at hr
    simp only [filepath.walkEntries, walk_below dir names name node files hr.1.1 hr.1.2,
      belowEntries, pushAll_cons, pushAll_append]
    exact walkEntries_below dir names rest _ hr.2
end

theorem pushAll_some (l xs : List GoString) : pushAll (some l) xs = some (l ++ xs) := by
  induction xs generalizing l with
  | nil => simp [pushAll]
  | cons x xs ih => rw [pushAll_cons]; simp [StringSlice.append, ih]

theorem pushAll_none (xs : List GoString) :
    pushAll none xs = (match xs with | [] => none | _ :: _ => some xs) := by
  cases xs with
  | nil => rfl
  | cons x xs => rw [pushAll_cons]; simp [StringSlice.append, pushAll_some]

theorem walk_root (dir : GoString) (root : Node) (hr : readable root = true) :
    filepath.walk (ListFiles.walkFn dir) { root := dir, names := [] } root none
      = Except.ok (pushAll none (below [] root)) := by
  match root with
  | Node.file => simp [filepath.walk, walkFn_root, below, pushAll]
  | Node.dir entries =>
    simp only [readable] at hr
    simp only [filepath.walk, walkFn_root, below]
    exact walkEntries_below dir [] entries none hr
  | Node.unreadable err => simp [readable] at hr
  | Node.missing err => simp [readable] at hr

/-- What `ListFiles` returns for a readable tree. -/
theorem ListFiles_readable_tree (env : Env σ) (raw : GoString) (w : World σ)
    (input : ListFilesInput)
    (hdec : env.unmarshalListFiles raw = Except.ok input)
    (hr : readable
      (env.lstatTree (if input.Path ≠ [] then input.Path else str ".") w.state).1 = true) :
    (ListFiles env raw w).1 = Except.ok (JSON.render env.jsonQuote
      (match below [] (env.lstatTree (if input.Path ≠ [] then input.Path else str ".")
          w.state).1 with
       | [] => JSON.null
       | x :: xs => JSON.array (x :: xs)))
    ∧ (ListFiles env raw w).2.trace
      = w.trace ++ [Event.walk (if input.Path ≠ [] then input.Path else str ".")] := by
  unfold ListFiles
  rw [hdec]
  simp only [filepath.Walk, walk_root _ _ hr, pushAll_none]
  constructor
  · cases below [] (env.lstatTree (if input.Path ≠ [] then input.Path else str ".")
      w.state).1 <;> rfl
  · trivial

/-- The example of the specification: the root holds `a.txt` and `b`, which holds `c.txt`. -/
theorem ListFiles_sample_tree :
    (ListFiles Mem.env (str "\x7b\x7d") (Mem.world [] Mem.sampleTree [])).1
      = Except.ok (str "[\"a.txt\",\"b/\",\"b/c.txt\"]") := by
  rfl

/-- Claim C9, the failing case: for a readable root directory without entries the slice of
names is still nil when it is encoded, and `ListFiles` returns the text `null`, which is not a
JSON array. -/
theorem ListFiles_empty_directory :
    (ListFiles Mem.env (str "\x7b\x7d") (Mem.world [] (Node.dir Entries.nil) [])).1
      = Except.ok (str "null") := by
  rfl

end Program

/-! ## The theorems at concrete inputs -/

section Concrete

open strings Spec Mem

/-- In a world whose file `f` holds `banana`, replacing `an` by `AN` writes `bANANa`. -/
theorem EditFile_replaces_every_occurrence_witness :
    (EditFile Mem.env (editArgs (str "f") (str "an") (str "AN")) (fruit false [])).1
      = Except.ok (str "File edited successfully.")
    ∧ (EditFile Mem.env (editArgs (str "f") (str "an") (str "AN")) (fruit false [])).2.trace
      = [Event.readFile (str "f"), Event.writeFile (str "f") (str "bANANa") 0o644]
    ∧ Join (pieces (str "banana") (str "an")) (str "an") = str "banana" :=
  EditFile_replaces_every_occurrence Mem.env (editArgs (str "f") (str "an") (str "AN"))
    (fruit false []) { Path := str "f", OldStr := str "an", NewStr := str "AN" } (str "banana")
    rfl ⟨by decide, rfl⟩ (by decide) ⟨str "b", str "ana", rfl⟩ (by decide) rfl

/-- Claim C1 as stated fails: the file `f` exists with content `banana`, `an` occurs in it
and differs from `AN`, yet `EditFile` fails, with the write error, when `f` is read-only, and
the file table is left as it was. -/
theorem EditFile_read_only_file_not_replaced :
    FileAt Mem.env (fruit true []).state (str "f") (str "banana")
    ∧ occursIn (str "an") (str "banana")
    ∧ Mem.env.unmarshalEditFile (editArgs (str "f") (str "an") (str "AN"))
      = Except.ok { Path := str "f", OldStr := str "an", NewStr := str "AN" }
    ∧ (EditFile Mem.env (editArgs (str "f") (str "an") (str "AN")) (fruit true [])).1
      = Except.error (GoError.errorf (str "error writing file: ")
          (str "open f: permission denied"))
    ∧ (EditFile Mem.env (editArgs (str "f") (str "an") (str "AN")) (fruit true [])).2.state.files
      = (fruit true []).state.files :=
  ⟨⟨by decide, rfl⟩, ⟨str "b", str "ana", rfl⟩, rfl, rfl, rfl⟩

/-- In a world whose file `f` holds `banana`, replacing `kiwi` fails with the no-change
error after a single read. -/
theorem EditFile_no_change_iff_absent_witness :
    ((EditFile Mem.env (editArgs (str "f") (str "kiwi") (str "AN")) (fruit false [])).1
        = Except.error errNoChange ↔ ¬ occursIn (str "kiwi") (str "banana"))
    ∧ (¬ occursIn (str "kiwi") (str "banana") →
        (EditFile Mem.env (editArgs (str "f") (str "kiwi") (str "AN")) (fruit false [])).2
          = (os.ReadFile Mem.env (str "f") (fruit false [])).2
        ∧ (EditFile Mem.env (editArgs (str "f") (str "kiwi") (str "AN"))
            (fruit false [])).2.trace = [Event.readFile (str "f")])
    ∧ (occursIn (str "kiwi") (str "banana") → ∃ d, d ≠ str "banana"
        ∧ (EditFile Mem.env (editArgs (str "f") (str "kiwi") (str "AN"))
            (fruit false [])).2.trace
          = [Event.readFile (str "f"), Event.writeFile (str "f") d 0o644]) :=
  EditFile_no_change_iff_absent Mem.env (editArgs (str "f") (str "kiwi") (str "AN"))
    (fruit false []) { Path := str "f", OldStr := str "kiwi", NewStr := str "AN" }
    (str "banana") rfl ⟨by decide, rfl⟩ (by decide) (by decide)

/-- An edit whose `old_str` and `new_str` are both `an` is rejected and the world is left
as it was. -/
theorem EditFile_rejects_invalid_input_witness :
    EditFile Mem.env (editArgs (str "f") (str "an") (str "an")) (fruit false [])
      = (Except.error errInvalidInput, fruit false []) :=
  EditFile_rejects_invalid_input Mem.env (editArgs (str "f") (str "an") (str "an"))
    (fruit false []) { Path := str "f", OldStr := str "an", NewStr := str "an" } rfl
    (Or.inr rfl)

/-- Editing the missing `docs/new.txt` creates `docs` and writes `one`, a newline, `two`. -/
theorem EditFile_creates_missing_file_witness :
    (EditFile Mem.env (editArgs (str "docs/new.txt") (str "one") (str "two"))
        (fruit false [])).1
      = Except.ok (str "Successfully created file docs/new.txt")
    ∧ (EditFile Mem.env (editArgs (str "docs/new.txt") (str "one") (str "two"))
        (fruit false [])).2.trace
      = [Event.readFile (str "docs/new.txt"), Event.mkdirAll (str "docs") 0o755,
         Event.writeFile (str "docs/new.txt") (str "one\ntwo") 0o644] :=
  have h := EditFile_creates_missing_file Mem.env
    (editArgs (str "docs/new.txt") (str "one") (str "two")) (fruit false [])
    (os.MkdirAll Mem.env (str "docs") 0o755
      (os.ReadFile Mem.env (str "docs/new.txt") (fruit false [])).2).2
    (EditFile Mem.env (editArgs (str "docs/new.txt") (str "one") (str "two"))
      (fruit false [])).2
    { Path := str "docs/new.txt", OldStr := str "one", NewStr := str "two" }
    rfl (by decide) (by decide) ⟨_, rfl, rfl⟩ rfl rfl
  ⟨congrArg Prod.fst h.1, rfl⟩

/-- With an empty `old_str`, `-` is put around every byte of `banana`. -/
theorem EditFile_empty_old_inserts_witness :
    (EditFile Mem.env (editArgs (str "f") (str "") (str "-")) (fruit false [])).2.trace
      = [Event.readFile (str "f"), Event.writeFile (str "f") (str "-b-a-n-a-n-a-") 0o644] :=
  ((EditFile_empty_old_inserts Mem.env (editArgs (str "f") (str "") (str "-"))
    (fruit false []) { Path := str "f", OldStr := str "", NewStr := str "-" } (str "banana")
    rfl ⟨by decide, rfl⟩ rfl (by decide)).2.1 rfl).2

/-- Claim C10 as stated fails: the file `f` exists, `old_str` is empty and `new_str` is
not, yet `EditFile` fails, with the write error, when `f` is read-only, and the file table
is left as it was. -/
theorem EditFile_empty_old_read_only_file :
    FileAt Mem.env (fruit true []).state (str "f") (str "banana")
    ∧ Mem.env.unmarshalEditFile (editArgs (str "f") (str "") (str "-"))
      = Except.ok { Path := str "f", OldStr := str "", NewStr := str "-" }
    ∧ (EditFile Mem.env (editArgs (str "f") (str "") (str "-")) (fruit true [])).1
      = Except.error (GoError.errorf (str "error writing file: ")
          (str "open f: permission denied"))
    ∧ (EditFile Mem.env (editArgs (str "f") (str "") (str "-")) (fruit true [])).2.state.files
      = (fruit true []).state.files :=
  ⟨⟨by decide, rfl⟩, rfl, rfl, rfl⟩

/-- The registry of `main` has no `delete_file`, and `read_file` reaches `ReadFile`. -/
theorem executeTool_dispatches_by_name_witness :
    (Mem.agent.executeTool { Name := str "delete_file", Arguments := str "\x7b\x7d" }
        (fruit false [])
      = (Except.error (errToolNotFound (str "delete_file")), fruit false []))
    ∧ (Mem.agent.executeTool { Name := str "read_file", Arguments := pathArgs (str "f") }
        (fruit false [])).1 = Except.ok (str "banana") :=
  ⟨(executeTool_dispatches_by_name Mem.agent
      { Name := str "delete_file", Arguments := str "\x7b\x7d" } (fruit false [])).1
      (by decide),
   congrArg Prod.fst ((executeTool_dispatches_by_name Mem.agent
      { Name := str "read_file", Arguments := pathArgs (str "f") } (fruit false [])).2.1
      [] (ReadFileDefinition Mem.env) [ListFilesDefinition Mem.env, EditFileDefinition Mem.env]
      rfl (by simp) rfl)⟩

/-- A turn the model answers in plain text. -/
theorem turn_plain_answer_witness :
    (Mem.agent.turn [] (str "hello") (fruit false [reply (answer (str "hi"))])).1
      = Step.next [userMessage (str "hello"), answer (str "hi")] :=
  congrArg Prod.fst (turn_plain_answer Mem.agent [] (str "hello")
    (fruit false [reply (answer (str "hi"))])
    (Mem.agent.runInference ([] ++ [userMessage (str "hello")])
      (fruit false [reply (answer (str "hi"))])).2
    (answer (str "hi")) [] rfl rfl).1

/-- A turn in which the model asks to read `f` and then answers. -/
theorem turn_tool_call_witness :
    (Mem.agent.turn [] (str "show f") (fruit false
        [reply (request (str "read_file") (pathArgs (str "f"))),
         reply (answer (str "it says banana"))])).1
      = Step.next [userMessage (str "show f"),
          request (str "read_file") (pathArgs (str "f")),
          toolMessage (str "read_file") (str "banana"), answer (str "it says banana")] :=
  congrArg Prod.fst (turn_tool_call Mem.agent [] (str "show f")
    (fruit false [reply (request (str "read_file") (pathArgs (str "f"))),
      reply (answer (str "it says banana"))]) _ _ _
    (request (str "read_file") (pathArgs (str "f"))) (answer (str "it says banana"))
    { Name := str "read_file", Arguments := pathArgs (str "f") } (str "banana") [] []
    rfl rfl rfl rfl).1

/-- A run in which `edit_file` finds nothing to replace ends at once with that error. -/
theorem tool_error_ends_run_witness :
    Agent.Run.loop Mem.agent [str "fix f", str "thanks"] []
        (fruit false [reply (request (str "edit_file")
          (editArgs (str "f") (str "kiwi") (str "AN"))), reply (answer (str "done"))])
      = (RunResult.returned (some errNoChange),
          (Mem.agent.turn [] (str "fix f") (fmtPrint promptLine (fruit false
            [reply (request (str "edit_file") (editArgs (str "f") (str "kiwi") (str "AN"))),
             reply (answer (str "done"))]))).2) :=
  (tool_error_ends_run Mem.agent [] (str "fix f") [str "thanks"]
    (fruit false [reply (request (str "edit_file")
      (editArgs (str "f") (str "kiwi") (str "AN"))), reply (answer (str "done"))]) _ _
    (request (str "edit_file") (editArgs (str "f") (str "kiwi") (str "AN")))
    { Name := str "edit_file", Arguments := editArgs (str "f") (str "kiwi") (str "AN") }
    errNoChange [] rfl rfl rfl).2

/-- Claim C3 as stated fails: when `edit_file` reports the no-change error `Run` returns
that error, the second reply of the model is never asked for and the second line of the user
is never read; the same holds for a tool that is not registered. -/
theorem Run_aborts_on_tool_error :
    (Agent.Run Mem.agent [str "fix f", str "thanks"]
        (fruit false [reply (request (str "edit_file")
          (editArgs (str "f") (str "kiwi") (str "AN"))), reply (answer (str "done"))])).1
      = RunResult.returned (some errNoChange)
    ∧ (Agent.Run Mem.agent [str "fix f", str "thanks"]
        (fruit false [reply (request (str "edit_file")
          (editArgs (str "f") (str "kiwi") (str "AN"))),
          reply (answer (str "done"))])).2.state.replies
      = [reply (answer (str "done"))]
    ∧ (Agent.Run Mem.agent [str "clean up"]
        (fruit false [reply (request (str "delete_file") (pathArgs (str "f"))),
          reply (answer (str "done"))])).1
      = RunResult.returned (some (errToolNotFound (str "delete_file"))) :=
  ⟨rfl, rfl, rfl⟩

end Concrete

end AgentCLI
